import Mathlib

/-!
Verification of the directory-tree-generator GUI's core tree model.

This file shallowly embeds the algorithmic core of the application:

* the editable tree data model (`Node`), mirroring the JS node objects of
  `src/public/script.js` (`id`, `name`, `type`, `children`, `collapsed`,
  `userOrder`); optional JS fields (possibly `undefined`) are modelled with
  `Option`;
* the sibling comparator `customNodeSort` and the renderers
  `generateAsciiTree` / `generateMarkdownTree` (script.js lines 650-851),
  where the JS `Array.prototype.sort` (stable since ES2019) is modelled by
  stable insertion sort (`List.insertionSort`, which is the stable sort);
* the editor operations: `findNodeById`, `findNodeParent`, `deleteNode`
  (and the root delete-button handler that clears the root's children),
  the rename handlers `saveName` / `saveRootName`, id assignment
  (`assignIdsAndCollapsedState`), save/load cleaning and validation;
* the main-process scanner `readDirectoryRecursive` and the
  `generate-tree` IPC handler of `src/main.js`, over an explicit
  filesystem value (`FSEntry`) that also encodes stat/readdir failures.

The JS builtin `String.prototype.localeCompare` is environment dependent;
it is modelled here by a concrete total order (`localeCompare`): compare
the (ASCII-)lowercased strings first and break ties with the raw strings.
All string helpers the code uses (`trim`, `startsWith`, `endsWith`,
lowercasing, the string order) are given kernel-evaluable models.  This
is a faithful model of a locale-aware comparison in the sense that it is
a linear order refining case-insensitive comparison; the model's
comparison result is `0` exactly on equal strings.
-/

namespace DirTree

/-- The `type` field of a JS tree node: `'folder'`, `'file'` or `'error'`. -/
inductive NType where
  | folder
  | file
  | error
deriving DecidableEq

/-- A tree node as held by the renderer process (`script.js`).  Fields that
may be `undefined` in JS are `Option`s.  `userOrder` is the pinned-order
key (a `Date.now()` timestamp), modelled as an integer. -/
inductive Node where
  | mk (id : Option String) (name : String) (type : NType)
       (children : Option (List Node)) (collapsed : Option Bool)
       (userOrder : Option Int)

/-- The `id` field. -/
def Node.id : Node → Option String
  | .mk i _ _ _ _ _ => i

/-- The `name` field. -/
def Node.name : Node → String
  | .mk _ n _ _ _ _ => n

/-- The `type` field. -/
def Node.type : Node → NType
  | .mk _ _ t _ _ _ => t

/-- The `children` field (`none` models JS `undefined`). -/
def Node.children : Node → Option (List Node)
  | .mk _ _ _ c _ _ => c

/-- The `collapsed` field. -/
def Node.collapsed : Node → Option Bool
  | .mk _ _ _ _ co _ => co

/-- The `userOrder` field (pinned-order key). -/
def Node.userOrder : Node → Option Int
  | .mk _ _ _ _ _ u => u

@[simp] theorem Node.id_mk (i n t c co u) : (Node.mk i n t c co u).id = i := rfl
@[simp] theorem Node.name_mk (i n t c co u) : (Node.mk i n t c co u).name = n := rfl
@[simp] theorem Node.type_mk (i n t c co u) : (Node.mk i n t c co u).type = t := rfl
@[simp] theorem Node.children_mk (i n t c co u) : (Node.mk i n t c co u).children = c := rfl
@[simp] theorem Node.collapsed_mk (i n t c co u) : (Node.mk i n t c co u).collapsed = co := rfl
@[simp] theorem Node.userOrder_mk (i n t c co u) : (Node.mk i n t c co u).userOrder = u := rfl

mutual

/-- Structural equality of nodes, used only to state and decide equalities
of concrete trees. -/
def nodeBEq : Node → Node → Bool
  | .mk i1 n1 t1 c1 co1 u1, .mk i2 n2 t2 c2 co2 u2 =>
      i1 == i2 && n1 == n2 && decide (t1 = t2) && co1 == co2 && u1 == u2 &&
        (match c1, c2 with
         | none, none => true
         | some l1, some l2 => nodeListBEq l1 l2
         | _, _ => false)

/-- `nodeBEq` on lists. -/
def nodeListBEq : List Node → List Node → Bool
  | [], [] => true
  | a :: as, b :: bs => nodeBEq a b && nodeListBEq as bs
  | _, _ => false

end

mutual

theorem nodeBEq_iff : ∀ a b : Node, nodeBEq a b = true ↔ a = b
  | .mk i1 n1 t1 c1 co1 u1, .mk i2 n2 t2 c2 co2 u2 => by
    cases c1 with
    | none => cases c2 <;> simp [nodeBEq, Node.mk.injEq, and_assoc]
    | some l1 =>
      cases c2 with
      | none => simp [nodeBEq, Node.mk.injEq]
      | some l2 =>
        simp [nodeBEq, Node.mk.injEq, nodeListBEq_iff l1 l2, and_assoc]
        intro _ _ _
        constructor
        · rintro ⟨h1, h2, h3⟩
          exact ⟨h3, h1, h2⟩
        · rintro ⟨h3, h1, h2⟩
          exact ⟨h1, h2, h3⟩

theorem nodeListBEq_iff : ∀ l1 l2 : List Node, nodeListBEq l1 l2 = true ↔ l1 = l2
  | [], [] => by simp [nodeListBEq]
  | [], _ :: _ => by simp [nodeListBEq]
  | _ :: _, [] => by simp [nodeListBEq]
  | a :: as, b :: bs => by
    simp [nodeListBEq, nodeBEq_iff a b, nodeListBEq_iff as bs]

end

instance : DecidableEq Node := fun a b => decidable_of_iff _ (nodeBEq_iff a b)

/-- JS iteration over `node.children`: an absent (`undefined`) children field
behaves exactly like an empty array in every loop of the source
(`node.children && node.children.length > 0` guards). -/
def optList : Option (List Node) → List Node
  | none => []
  | some l => l

@[simp] theorem optList_none : optList none = [] := rfl
@[simp] theorem optList_some (l : List Node) : optList (some l) = l := rfl

/-- The children of a node, as iterated by the JS code. -/
def Node.kids (n : Node) : List Node := optList n.children

@[simp] theorem Node.kids_mk (i n t c co u) : (Node.mk i n t c co u).kids = optList c := rfl

/-- ASCII lowercasing of one character (model of the JS builtin's behavior
on ASCII input), written to be evaluable by the kernel. -/
def lowerChar (c : Char) : Char :=
  if 'A' <= c ∧ c <= 'Z' then Char.ofNat (c.toNat + 32) else c

/-- Model of `String.prototype.toLowerCase` (ASCII), kernel-evaluable. -/
def jsToLower (s : String) : String := String.mk (s.data.map lowerChar)

/-- Model of `String.prototype.trim`: strip whitespace from both ends,
kernel-evaluable (the library `String.trim` does not reduce). -/
def jsTrim (s : String) : String :=
  String.mk (((s.data.dropWhile Char.isWhitespace).reverse.dropWhile Char.isWhitespace).reverse)

/-- Model of `String.prototype.startsWith`, kernel-evaluable. -/
def strStartsWith (s p : String) : Bool := p.data.isPrefixOf s.data

/-- Model of `String.prototype.endsWith`, kernel-evaluable. -/
def strEndsWith (s p : String) : Bool := p.data.reverse.isPrefixOf s.data.reverse

/-- Lexicographic comparison of character lists, kernel-evaluable; it agrees
with the library's list order (`charListLt_iff` below). -/
def charListLt : List Char → List Char → Bool
  | [], [] => false
  | [], _ :: _ => true
  | _ :: _, [] => false
  | a :: as, b :: bs => if a < b then true else if b < a then false else charListLt as bs

/-- The library's `String` order, kernel-evaluable (`strLt_iff` below). -/
def strLt (a b : String) : Bool := charListLt a.data b.data

/-- Model of `a.localeCompare(b)`: a concrete linear comparison refining
case-insensitive order (see the file docstring). -/
def localeCompare (a b : String) : Int :=
  if strLt (jsToLower a) (jsToLower b) then -1
  else if strLt (jsToLower b) (jsToLower a) then 1
  else if strLt a b then -1
  else if strLt b a then 1
  else 0

/-- `customNodeSort` (script.js lines 650-673): folders before files, items
without `userOrder` before items with it, both-`userOrder` compared
numerically, otherwise names compared with `localeCompare`. -/
def customNodeSort (a b : Node) : Int :=
  let aIsFolder := a.type = NType.folder
  let bIsFolder := b.type = NType.folder
  let aHasUserOrder := a.userOrder.isSome
  let bHasUserOrder := b.userOrder.isSome
  if aIsFolder ∧ ¬ bIsFolder then -1
  else if ¬ aIsFolder ∧ bIsFolder then 1
  else if ¬ aHasUserOrder ∧ bHasUserOrder then -1
  else if aHasUserOrder ∧ ¬ bHasUserOrder then 1
  else if aHasUserOrder ∧ bHasUserOrder then a.userOrder.getD 0 - b.userOrder.getD 0
  else localeCompare a.name b.name

/-- The non-strict order induced by the comparator (`customNodeSort a b <= 0`),
which is what a comparison-based sort consults. -/
def nodeRel (a b : Node) : Prop := customNodeSort a b ≤ 0

instance : DecidableRel nodeRel := fun a b => inferInstanceAs (Decidable (_ ≤ _))

/-- Model of `[...array].sort(customNodeSort)`: JS sort is stable
(ES2019), and stable sorting by a consistent comparator is exactly
insertion sort by the comparator's non-strict order. -/
def jsSort (l : List Node) : List Node := List.insertionSort nodeRel l

theorem sizeOf_orderedInsert (r : Node → Node → Prop) [DecidableRel r]
    (a : Node) (l : List Node) :
    sizeOf (List.orderedInsert r a l) = sizeOf (a :: l) := by
  induction l with
  | nil => simp [List.orderedInsert]
  | cons b t ih =>
    simp only [List.orderedInsert]
    split
    · rfl
    · simp only [List.cons.sizeOf_spec, ih]
      omega

theorem sizeOf_jsSort (l : List Node) : sizeOf (jsSort l) = sizeOf l := by
  induction l with
  | nil => rfl
  | cons b t ih =>
    simp only [jsSort, List.insertionSort] at *
    rw [sizeOf_orderedInsert, List.cons.sizeOf_spec, List.cons.sizeOf_spec, ih]

theorem sizeOf_kids_lt (n : Node) : sizeOf n.kids < sizeOf n := by
  cases n with
  | mk i nm t c co u =>
    cases c with
    | none => simp [Node.kids, Node.children, optList]; omega
    | some l => simp [Node.kids, Node.children, optList]; omega

theorem sizeOf_jsSort_kids_lt (n : Node) : sizeOf (jsSort n.kids) < sizeOf n := by
  rw [sizeOf_jsSort]; exact sizeOf_kids_lt n

mutual

/-- `generateAsciiTree` (script.js lines 788-827).  The conceptual root
(`id === 'root'`) is rendered as a bare name line; other nodes get an
indent and a `├── `/`└── ` connector; children are sorted with
`customNodeSort` before emission. -/
def generateAsciiTree (node : Node) (indent : String := "") (isLast : Bool := true) : String :=
  if node.id = some "root" then
    node.name ++ "\n" ++ asciiChildren (jsSort node.kids) ""
  else
    indent ++ (if isLast then "└── " else "├── ") ++ node.name ++ "\n" ++
      asciiChildren (jsSort node.kids) (indent ++ (if isLast then "    " else "│   "))
termination_by sizeOf node
decreasing_by all_goals exact sizeOf_jsSort_kids_lt node

/-- The `sortedChildren.forEach((child, index) => ...)` loop of
`generateAsciiTree`: renders each child, the last one with `isLast`. -/
def asciiChildren (l : List Node) (childIndent : String) : String :=
  match l with
  | [] => ""
  | c :: rest => generateAsciiTree c childIndent rest.isEmpty ++ asciiChildren rest childIndent
termination_by sizeOf l
decreasing_by all_goals (simp [List.cons.sizeOf_spec] <;> omega)

end

mutual

/-- `generateMarkdownTree` (script.js lines 836-851): `- name` lines with
two spaces of indent per level, children sorted with `customNodeSort`. -/
def generateMarkdownTree (node : Node) (level : Nat := 0) : String :=
  String.join (List.replicate level "  ") ++ "- " ++ node.name ++ "\n" ++
    markdownChildren (jsSort node.kids) (level + 1)
termination_by sizeOf node
decreasing_by exact sizeOf_jsSort_kids_lt node

/-- The child loop of `generateMarkdownTree`. -/
def markdownChildren (l : List Node) (level : Nat) : String :=
  match l with
  | [] => ""
  | c :: rest => generateMarkdownTree c level ++ markdownChildren rest level
termination_by sizeOf l
decreasing_by all_goals (simp [List.cons.sizeOf_spec] <;> omega)

end

/-! ### Structural queries: find-by-id and find-parent -/

mutual

/-- `findNodeById` (script.js 713-730): depth-first search, the node itself
first, then its children in order (an absent children field means there
is nothing to search below). -/
def findNodeById : Node → String → Option Node
  | .mk id nm t none co u, i =>
      if id = some i then some (Node.mk id nm t none co u) else none
  | .mk id nm t (some l) co u, i =>
      if id = some i then some (Node.mk id nm t (some l) co u)
      else findInChildren l i

/-- The child loop of `findNodeById`. -/
def findInChildren : List Node → String → Option Node
  | [], _ => none
  | c :: rest, i =>
      match findNodeById c i with
      | some found => some found
      | none => findInChildren rest i

end

mutual

/-- `findNodeParent` (script.js 740-756): returns the first node (in the
same depth-first order) having a direct child with the given id; `none`
both when the id is absent and when it names the root. -/
def findNodeParent : Node → String → Option Node
  | .mk _ _ _ none _ _, _ => none
  | .mk id nm t (some l) co u, i =>
      if l.any (fun c => c.id == some i) then some (Node.mk id nm t (some l) co u)
      else findParentInChildren l i

/-- The child loop of `findNodeParent`. -/
def findParentInChildren : List Node → String → Option Node
  | [], _ => none
  | c :: rest, i =>
      match findNodeParent c i with
      | some p => some p
      | none => findParentInChildren rest i

end

/-- Replace the `children` field. -/
def Node.withChildren : Node → Option (List Node) → Node
  | .mk i nm t _ co u, c => .mk i nm t c co u

/-- Replace the `name` field. -/
def Node.withName : Node → String → Node
  | .mk i _ t c co u, nm => .mk i nm t c co u

/-! ### Deletion -/

mutual

/-- Functional rendering of the in-place mutation performed by `deleteNode`
(script.js 1341-1344): locate the first parent, in `findNodeParent`'s
search order, that has a direct child with id `i`, and filter that child
out of its children (`parentNode.children = parentNode.children.filter(...)`);
`none` when no such parent exists. -/
def deleteIn : Node → String → Option Node
  | .mk _ _ _ none _ _, _ => none
  | .mk id nm t (some l) co u, i =>
      if l.any (fun c => c.id == some i) then
        some (Node.mk id nm t (some (l.filter (fun c => ¬ (c.id == some i)))) co u)
      else
        match deleteInChildren l i with
        | some l2 => some (Node.mk id nm t (some l2) co u)
        | none => none

/-- The recursive descent of `deleteIn` into the child list. -/
def deleteInChildren : List Node → String → Option (List Node)
  | [], _ => none
  | c :: rest, i =>
      match deleteIn c i with
      | some c2 => some (c2 :: rest)
      | none =>
          match deleteInChildren rest i with
          | some rest2 => some (c :: rest2)
          | none => none

end

/-- `deleteNode` (script.js 1333-1360), with the confirmation dialog
accepted: no-op when the id is not in the tree; otherwise remove the node
from its parent's children; when no parent is found (the id names the
conceptual root) an error message is shown and the tree stays unchanged. -/
def deleteNode (tree : Node) (i : String) : Node :=
  match findNodeById tree i with
  | none => tree
  | some _ =>
      match deleteIn tree i with
      | some t2 => t2
      | none => tree

/-- The root line's delete button handler (script.js 1211-1227), with the
confirmation accepted: `currentTreeData.children = []`. -/
def clearRootChildren (tree : Node) : Node := tree.withChildren (some [])

/-- The delete action as wired in the editor: the delete button rendered on
the root's own line clears the root's children (script.js 1211-1227);
the delete button of every other rendered node invokes `deleteNode` with
that node's id (script.js 1054-1061). -/
def deleteAction (tree : Node) (i : String) : Node :=
  if tree.id = some i then clearRootChildren tree else deleteNode tree i

/-! ### Counting and erasing ids (specification-side helpers) -/

mutual

/-- Number of nodes in the tree whose id is `some i`. -/
def countId : Node → String → Nat
  | .mk id _ _ none _ _, i => if id = some i then 1 else 0
  | .mk id _ _ (some l) _ _, i => (if id = some i then 1 else 0) + countIdList l i

/-- `countId` over a list of nodes. -/
def countIdList : List Node → String → Nat
  | [], _ => 0
  | c :: rest, i => countId c i + countIdList rest i

end

mutual

/-- Remove from every child list each node whose id is `some i`, together
with its entire subtree; everything else is untouched. -/
def eraseAll : Node → String → Node
  | .mk id nm t none co u, _ => .mk id nm t none co u
  | .mk id nm t (some l) co u, i => .mk id nm t (some (eraseAllList l i)) co u

/-- `eraseAll` on a child list: drop the nodes with id `some i`, recurse
into the rest. -/
def eraseAllList : List Node → String → List Node
  | [], _ => []
  | c :: rest, i =>
      if c.id = some i then eraseAllList rest i
      else eraseAll c i :: eraseAllList rest i

end

/-! ### Rename -/

mutual

/-- Apply `f` to every node whose id is `some i` (the functional rendering
of mutating the uniquely-identified node found by the DFS). -/
def mapById : Node → String → (Node → Node) → Node
  | .mk id nm t none co u, i, f =>
      let base := Node.mk id nm t none co u
      if id = some i then f base else base
  | .mk id nm t (some l) co u, i, f =>
      let base := Node.mk id nm t (some (mapListById l i f)) co u
      if id = some i then f base else base

/-- `mapById` over a child list. -/
def mapListById : List Node → String → (Node → Node) → List Node
  | [], _, _ => []
  | c :: rest, i, f => mapById c i f :: mapListById rest i f

end

/-- The successful-rename mutation of `saveName` (script.js 985-995):
set the name; a rename to the sentinel `"..."` assigns `Date.now()` as
`userOrder`, any other rename removes the key (deleting an absent key
leaves it absent, so the result is `none` in both non-sentinel cases). -/
def renameUpdate (newName : String) (now : Int) : Node → Node
  | .mk id _ t c co _ =>
      .mk id newName t c co (if newName = "..." then some now else none)

/-- The sibling list consulted by `saveName`'s duplicate check
(`parentNode ? parentNode.children : []`, script.js 973-974). -/
def renameSiblings (tree : Node) (nodeId : String) : List Node :=
  match findNodeParent tree nodeId with
  | some p => p.kids
  | none => []

/-- `saveName`'s duplicate test (script.js 975-977): some sibling other than
the node itself has exactly the new (trimmed) name and the same type. -/
def isDuplicateName (tree : Node) (nodeId : String) (newName : String) (ty : NType) : Bool :=
  (renameSiblings tree nodeId).any
    (fun s => decide (s.id ≠ some nodeId ∧ s.name = newName ∧ s.type = ty))

/-- `saveName` (script.js 964-1001), the rename handler for non-root nodes:
trims the input; an empty result or a duplicate same-type sibling name is
rejected with a message and the tree is returned unchanged (the JS
handler returns before mutating anything); otherwise the node's name and
pinned-order key are updated in place.  The node-not-found case cannot
arise in the UI (the handler is installed on a rendered node); it is
modelled as a rejection that leaves the tree unchanged. -/
def saveName (tree : Node) (nodeId : String) (raw : String) (now : Int) :
    Node × Option String :=
  let newName := jsTrim raw
  if newName = "" then (tree, some "Name cannot be empty.")
  else
    match findNodeById tree nodeId with
    | none => (tree, some "Node not found.")
    | some node =>
        if isDuplicateName tree nodeId newName node.type then
          (tree, some ("An item named \"" ++ newName ++ "\" already exists in this directory."))
        else
          (mapById tree nodeId (renameUpdate newName now), none)

/-- `saveRootName` (script.js 1151-1163): trims the input, rejects an empty
result, and otherwise updates only the root's name — the pinned-order
rule of `saveName` is not applied here. -/
def saveRootName (tree : Node) (raw : String) : Node × Option String :=
  let newName := jsTrim raw
  if newName = "" then (tree, some "Root name cannot be empty.")
  else (tree.withName newName, none)

/-! ### The pinned-order invariant -/

mutual

/-- The §3 invariant: in every node of the tree, the pinned-order key
is present exactly when the name is the sentinel `"..."`. -/
def pinnedInv : Node → Bool
  | .mk _ nm _ none _ u => u.isSome == decide (nm = "...")
  | .mk _ nm _ (some l) _ u => (u.isSome == decide (nm = "...")) && pinnedInvList l

/-- `pinnedInv` over a child list. -/
def pinnedInvList : List Node → Bool
  | [] => true
  | c :: rest => pinnedInv c && pinnedInvList rest

end

/-! ### Id assignment, save cleaning, shape validation, load -/

mutual

/-- `assignIdsAndCollapsedState` (script.js 689-705) together with the
global `nextId` counter of `generateUniqueId` (script.js 679-681):
assign `'node-' ++ k` to every node whose id is missing (or `""`, which
is JS-falsy), default `collapsed` to `false` on folders, and recurse into
children of folders only.  Returns the node and the next counter value. -/
def assignIds : Node → Nat → Node × Nat
  | .mk id nm t c co u, k =>
      let p : String × Nat :=
        match id with
        | none => ("node-" ++ toString k, k + 1)
        | some s => if s = "" then ("node-" ++ toString k, k + 1) else (s, k)
      match t, c with
      | NType.folder, some l =>
          let q := assignIdsList l p.2
          (Node.mk (some p.1) nm NType.folder (some q.1) (some (co.getD false)) u, q.2)
      | NType.folder, none =>
          (Node.mk (some p.1) nm NType.folder none (some (co.getD false)) u, p.2)
      | t2, _ => (Node.mk (some p.1) nm t2 c co u, p.2)

/-- `assignIds` over a child list, threading the counter left to right. -/
def assignIdsList : List Node → Nat → List Node × Nat
  | [], k => ([], k)
  | c :: rest, k =>
      let a := assignIds c k
      let b := assignIdsList rest a.2
      (a.1 :: b.1, b.2)

end

mutual

/-- `cleanNodeForSave` (script.js 1513-1521) composed with the JSON deep
copy of the save handler: `id` and `collapsed` are deleted from every
node, `userOrder` is kept; the JSON round trip maps absent fields to
absent fields. -/
def cleanNodeForSave : Node → Node
  | .mk _ nm t none _ u => .mk none nm t none none u
  | .mk _ nm t (some l) _ u => .mk none nm t (some (cleanListForSave l)) none u

/-- `cleanNodeForSave` over a child list. -/
def cleanListForSave : List Node → List Node
  | [] => []
  | c :: rest => cleanNodeForSave c :: cleanListForSave rest

end

/-- `isValidTreeStructure` (script.js 764-771) evaluated on a value that is
already a tree node of this model: the `name` field of a model node is
always a string, so the check reduces to `type` being `'folder'` or
`'file'` and `children` being an array (present). -/
def isValidShapeNode (t : Node) : Bool :=
  (decide (t.type = NType.folder) || decide (t.type = NType.file)) && t.children.isSome

/-- The root-id and default-name fixups of the load handler
(script.js 1550-1556): the id is forced to `'root'`; then, since the id
is `'root'`, a JS-falsy (empty) name is replaced by `"project_root"`. -/
def forceRootIdAndName : Node → Node
  | .mk _ nm t c co u =>
      .mk (some "root") (if nm = "" then "project_root" else nm) t c co u

/-- The accepting path of the load handler (script.js 1538-1563) applied to
a value already in tree form: shape-validate, apply the root fixups, then
assign ids and collapsed state starting from counter `k`; `none` models
the rejection branch that keeps the previous tree. -/
def deserializeForLoad (t : Node) (k : Nat) : Option Node :=
  if isValidShapeNode t then some (assignIds (forceRootIdAndName t) k).1 else none

/-! ### Arbitrary JSON values and the shape validator (load path) -/

/-- A JSON value, as produced by `JSON.parse` on a loaded file. -/
inductive JValue where
  | str (s : String)
  | num (n : Int)
  | bool (b : Bool)
  | null
  | arr (elems : List JValue)
  | obj (fields : List (String × JValue))

/-- Own-property lookup on a JS object literal (first occurrence wins). -/
def jLookup (fields : List (String × JValue)) (k : String) : Option JValue :=
  match fields with
  | [] => none
  | (k2, v) :: rest => if k2 = k then some v else jLookup rest k

/-- `isValidTreeStructure` (script.js 764-771) on arbitrary parsed JSON:
a non-null object with a string `name`, a `type` equal to `'folder'` or
`'file'`, and an array-valued `children`.  Non-object values (including
arrays, which cannot carry these string properties) fail the check. -/
def isValidTreeStructure (t : JValue) : Bool :=
  match t with
  | .obj fields =>
      (match jLookup fields "name" with
       | some (.str _) => true
       | _ => false) &&
      (match jLookup fields "type" with
       | some (.str s) => s == "folder" || s == "file"
       | _ => false) &&
      (match jLookup fields "children" with
       | some (.arr _) => true
       | _ => false)
  | _ => false

/-! ### The main-process scanner (`src/main.js`) -/

/-- A filesystem subtree for the scanner model.  `gitignore` holds the raw
lines of the directory's `.gitignore` when that file is readable (`none`
models ENOENT or a read failure, both treated as an empty pattern list by
the code).  `statError` is an entry whose `fs.stat` call fails;
`readError` is a directory whose stat succeeds but whose `fs.readdir`
fails. -/
inductive FSEntry where
  | file (name : String)
  | dir (name : String) (gitignore : Option (List String)) (entries : List FSEntry)
  | statError (name : String)
  | readError (name : String) (gitignore : Option (List String))

/-- `path.basename` of the entry's path. -/
def FSEntry.name : FSEntry → String
  | .file n => n
  | .dir n _ _ => n
  | .statError n => n
  | .readError n _ => n

/-- One line of `getGitignorePatterns` (main.js 60-75): trim, skip comments
and blank lines, strip one leading slash then one trailing slash. -/
def gitignoreLinePattern (line : String) : Option String :=
  let l := jsTrim line
  if strStartsWith l "#" || l = "" then none
  else
    let l1 := if strStartsWith l "/" then l.drop 1 else l
    let l2 := if strEndsWith l1 "/" then l1.dropRight 1 else l1
    some l2

/-- `getGitignorePatterns` (main.js 55-83): the parsed patterns of the
entry's `.gitignore`; a missing or unreadable file yields no patterns. -/
def getGitignorePatterns (e : FSEntry) : List String :=
  match e with
  | .dir _ (some lines) _ => lines.filterMap gitignoreLinePattern
  | .readError _ (some lines) => lines.filterMap gitignoreLinePattern
  | _ => []

/-- `combinedIgnoreSet` (main.js 100-106): the inherited ignore list plus
the current directory's own `.gitignore` patterns when the option is
enabled.  The JS code keeps these in a `Set` and passes `Array.from` of
it downward; only membership is ever consulted, so it is modelled as a
list. -/
def combinedIgnore (ignoreList : List String) (e : FSEntry) (useGitignore : Bool) :
    List String :=
  ignoreList ++ (if useGitignore then getGitignorePatterns e else [])

mutual

/-- `readDirectoryRecursive` (main.js 96-164).  `isRoot` models
`dirPath === initialRootPath`, true exactly for the top-level call (every
recursive call descends to a strictly longer path).  `Except.error`
models a thrown error; `Except.ok none` models returning `null` for an
ignored entry. -/
def readDirectoryRecursive (e : FSEntry) (isRoot : Bool) (ignoreList : List String)
    (useGitignore : Bool) : Except String (Option Node) :=
  let name := e.name
  let combined := combinedIgnore ignoreList e useGitignore
  if ¬ isRoot ∧ name ∈ combined then Except.ok none
  else
    match e with
    | .statError _ =>
        if isRoot then Except.error "Cannot access selected folder"
        else Except.ok (some (Node.mk none (name ++ " (inaccessible)") NType.error none none none))
    | .file _ =>
        if name ∈ combined then Except.ok none
        else Except.ok (some (Node.mk none name NType.file none none none))
    | .readError _ _ =>
        Except.ok (some (Node.mk none (name ++ " (cannot read)") NType.error none none none))
    | .dir _ _ entries =>
        match readEntries entries combined useGitignore with
        | Except.error msg => Except.error msg
        | Except.ok kids =>
            Except.ok (some (Node.mk none name NType.folder (some kids) none none))

/-- The entry loop of `readDirectoryRecursive` (main.js 147-159): skip
entries named in the combined set, recurse on the rest with the combined
set as the inherited list, and keep the non-`null` results in order. -/
def readEntries (entries : List FSEntry) (combined : List String) (useGitignore : Bool) :
    Except String (List Node) :=
  match entries with
  | [] => Except.ok []
  | ent :: rest =>
      if ent.name ∈ combined then readEntries rest combined useGitignore
      else
        match readDirectoryRecursive ent false combined useGitignore with
        | Except.error msg => Except.error msg
        | Except.ok none => readEntries rest combined useGitignore
        | Except.ok (some child) =>
            match readEntries rest combined useGitignore with
            | Except.error msg => Except.error msg
            | Except.ok kids => Except.ok (child :: kids)

end

/-- The `generate-tree` IPC handler (main.js 248-270): run the scan with the
chosen folder as both current and initial root; when the scan returns
`null` (fully ignored), fabricate an empty folder root named after the
path's basename; a thrown scan error is re-thrown with a prefix.  The
handler's `folderPath` argument is modelled by the root `FSEntry`, whose
`name` is the path's basename. -/
def generateTree (rootFs : FSEntry) (ignoreList : List String) (useGitignore : Bool) :
    Except String Node :=
  match readDirectoryRecursive rootFs true ignoreList useGitignore with
  | Except.error msg => Except.error ("Failed to generate tree: " ++ msg)
  | Except.ok none => Except.ok (Node.mk none rootFs.name NType.folder (some []) none none)
  | Except.ok (some t) => Except.ok t

/-! ### Specification-side definitions used by claim statements and proofs -/

/-- A lexicographic key whose linear order coincides with the comparator's
non-strict order: bucket (folders first), pinned-key flag, pinned value,
then lowercased and raw name (the name components are only populated for
unpinned nodes, because the comparator never reaches the names when both
sides carry a pinned key). -/
def sortKey (n : Node) : Lex (Nat × Lex (Nat × Lex (Int × Lex (String × String)))) :=
  toLex ((if n.type = NType.folder then 0 else 1),
    toLex ((if n.userOrder.isSome then 1 else 0),
      toLex (n.userOrder.getD 0,
        toLex ((if n.userOrder.isSome then "" else jsToLower n.name),
          (if n.userOrder.isSome then "" else n.name)))))

/-- The §4.4 sorting policy written from the specification's four rules:
1. folders sort before files (Error nodes in the file bucket); 2. within
a kind, nodes without a pinned-order key sort before nodes with one;
3. two pinned keys compare numerically ascending; 4. otherwise names
compare with the locale-aware order.  This is the specification-side
reference that claim C3 compares against `customNodeSort`. -/
def sorterSpecCompare (a b : Node) : Int :=
  let bucket : Node → Nat := fun n => if n.type = NType.folder then 0 else 1
  if bucket a < bucket b then -1
  else if bucket b < bucket a then 1
  else if ¬ a.userOrder.isSome ∧ b.userOrder.isSome then -1
  else if a.userOrder.isSome ∧ ¬ b.userOrder.isSome then 1
  else if a.userOrder.isSome ∧ b.userOrder.isSome then
    (if a.userOrder.getD 0 < b.userOrder.getD 0 then -1
     else if b.userOrder.getD 0 < a.userOrder.getD 0 then 1 else 0)
  else localeCompare a.name b.name

mutual

/-- `PermTree a b`: `b` is `a` with, at every node, the children sequence
permuted (and nothing else changed). -/
def PermTree : Node → Node → Prop
  | .mk i1 n1 t1 c1 co1 u1, .mk i2 n2 t2 c2 co2 u2 =>
      i1 = i2 ∧ n1 = n2 ∧ t1 = t2 ∧ co1 = co2 ∧ u1 = u2 ∧ PermChildren c1 c2

/-- The children part of `PermTree`: both absent, or the second list is a
permutation of a pointwise-`PermTree` image of the first. -/
def PermChildren : Option (List Node) → Option (List Node) → Prop
  | none, none => True
  | some l1, some l2 => ∃ l, PermAligned l1 l ∧ l.Perm l2
  | _, _ => False

/-- Pointwise `PermTree` on equally long lists. -/
def PermAligned : List Node → List Node → Prop
  | [], [] => True
  | a :: as, b :: bs => PermTree a b ∧ PermAligned as bs
  | _, _ => False

end

mutual

/-- `equivFree n`: nowhere in the tree do two siblings compare as
equivalent under `customNodeSort` (each child list is pairwise strictly
ordered once sorted).  This is the hypothesis under which rendering is
insensitive to the order in which children are stored. -/
def equivFree : Node → Bool
  | .mk _ _ _ none _ _ => true
  | .mk _ _ _ (some l) _ _ => pairwiseNonEquiv l && equivFreeList l

/-- `equivFree` for every node of a list. -/
def equivFreeList : List Node → Bool
  | [] => true
  | c :: rest => equivFree c && equivFreeList rest

/-- No two distinct positions of the list hold comparator-equivalent nodes. -/
def pairwiseNonEquiv : List Node → Bool
  | [] => true
  | c :: rest =>
      rest.all (fun d => ! (decide (nodeRel c d) && decide (nodeRel d c))) &&
        pairwiseNonEquiv rest

end

mutual

/-- Projection of a node to its render-relevant data: keeps `name`, `type`,
`userOrder` and the children structure, records only whether the id is
the reserved `'root'`, and forgets `collapsed`.  Two nodes with the same
`stripView` render identically. -/
def stripView : Node → Node
  | .mk i nm t none _ u =>
      .mk (if i = some "root" then some "root" else none) nm t none none u
  | .mk i nm t (some l) _ u =>
      .mk (if i = some "root" then some "root" else none) nm t (some (stripViewList l)) none u

/-- `stripView` over a list. -/
def stripViewList : List Node → List Node
  | [] => []
  | c :: rest => stripView c :: stripViewList rest

end

/-! ## Order theory of the comparator -/

theorem charListLt_iff : ∀ (as bs : List Char), charListLt as bs = true ↔ as < bs := by
  intro as
  induction as with
  | nil =>
    intro bs
    cases bs with
    | nil =>
      constructor
      · intro h
        exact absurd h (by simp [charListLt])
      · intro h
        cases h
    | cons b bs =>
      constructor
      · intro _
        exact List.Lex.nil
      · intro _
        rfl
  | cons a as ih =>
    intro bs
    cases bs with
    | nil =>
      constructor
      · intro h
        exact absurd h (by simp [charListLt])
      · intro h
        cases h
    | cons b bs =>
      simp only [charListLt]
      split_ifs with h1 h2
      · constructor
        · intro _
          exact List.Lex.rel h1
        · intro _
          rfl
      · constructor
        · intro h
          simp at h
        · intro hlt
          exfalso
          cases hlt with
          | rel h3 => exact h1 h3
          | cons h3 => exact lt_irrefl a h2
      · have hab : a = b := le_antisymm (not_lt.mp h2) (not_lt.mp h1)
        subst hab
        rw [ih bs]
        constructor
        · intro h
          exact List.Lex.cons h
        · intro hlt
          cases hlt with
          | rel h3 => exact absurd h3 h1
          | cons h3 => exact h3

theorem strLt_iff (a b : String) : strLt a b = true ↔ a < b := by
  rw [strLt, charListLt_iff]
  exact (String.lt_iff_toList_lt).symm

theorem localeCompare_le_iff (a b : String) :
    localeCompare a b ≤ 0 ↔
      (jsToLower a < jsToLower b ∨ (jsToLower a = jsToLower b ∧ a ≤ b)) := by
  unfold localeCompare
  have e1 := strLt_iff (jsToLower a) (jsToLower b)
  have e2 := strLt_iff (jsToLower b) (jsToLower a)
  have e3 := strLt_iff a b
  have e4 := strLt_iff b a
  split_ifs with h1 h2 h3 h4
  · simp [e1.mp h1]
  · have hg : jsToLower b < jsToLower a := e2.mp h2
    constructor
    · intro h; omega
    · rintro (hlt | ⟨heq, _⟩)
      · exact absurd (e1.mpr hlt) (by simp [h1])
      · exact absurd heq (ne_of_gt hg)
  · have hn1 : ¬ jsToLower a < jsToLower b := fun hc => by simp [e1.mpr hc] at h1
    have hn2 : ¬ jsToLower b < jsToLower a := fun hc => by simp [e2.mpr hc] at h2
    have he : jsToLower a = jsToLower b := le_antisymm (not_lt.mp hn2) (not_lt.mp hn1)
    simp [he, le_of_lt (e3.mp h3)]
  · have hn1 : ¬ jsToLower a < jsToLower b := fun hc => by simp [e1.mpr hc] at h1
    have hn2 : ¬ jsToLower b < jsToLower a := fun hc => by simp [e2.mpr hc] at h2
    have he : jsToLower a = jsToLower b := le_antisymm (not_lt.mp hn2) (not_lt.mp hn1)
    have hb : b < a := e4.mp h4
    have hn : ¬ a ≤ b := not_le.mpr hb
    simp [he, hn]
  · have hn1 : ¬ jsToLower a < jsToLower b := fun hc => by simp [e1.mpr hc] at h1
    have hn2 : ¬ jsToLower b < jsToLower a := fun hc => by simp [e2.mpr hc] at h2
    have hn3 : ¬ a < b := fun hc => by simp [e3.mpr hc] at h3
    have hn4 : ¬ b < a := fun hc => by simp [e4.mpr hc] at h4
    have he : jsToLower a = jsToLower b := le_antisymm (not_lt.mp hn2) (not_lt.mp hn1)
    have hab : a = b := le_antisymm (not_lt.mp hn4) (not_lt.mp hn3)
    simp [he, hab]

theorem customNodeSort_le_iff (a b : Node) :
    customNodeSort a b ≤ 0 ↔ sortKey a ≤ sortKey b := by
  unfold customNodeSort sortKey
  rcases ha : a.userOrder with _ | av <;> rcases hb : b.userOrder with _ | bv <;>
    by_cases haF : a.type = NType.folder <;> by_cases hbF : b.type = NType.folder <;>
      simp [ha, hb, haF, hbF, Prod.Lex.le_iff, localeCompare_le_iff] <;>
        omega

/-- The comparator's non-strict order is reflexive. -/
theorem nodeRel_refl (a : Node) : nodeRel a a :=
  (customNodeSort_le_iff a a).mpr le_rfl

instance : IsTotal Node nodeRel :=
  ⟨fun a b => by
    rcases le_total (sortKey a) (sortKey b) with h | h
    · exact Or.inl ((customNodeSort_le_iff a b).mpr h)
    · exact Or.inr ((customNodeSort_le_iff b a).mpr h)⟩

instance : IsTrans Node nodeRel :=
  ⟨fun a b c hab hbc =>
    (customNodeSort_le_iff a c).mpr
      (le_trans ((customNodeSort_le_iff a b).mp hab) ((customNodeSort_le_iff b c).mp hbc))⟩

theorem sortKey_eq_of_both {a b : Node} (h1 : nodeRel a b) (h2 : nodeRel b a) :
    sortKey a = sortKey b :=
  le_antisymm ((customNodeSort_le_iff a b).mp h1) ((customNodeSort_le_iff b a).mp h2)

/-! ## Properties of the stable sort -/

theorem jsSort_perm (l : List Node) : List.Perm (jsSort l) l :=
  List.perm_insertionSort nodeRel l

theorem jsSort_sorted (l : List Node) : List.Sorted nodeRel (jsSort l) :=
  List.sorted_insertionSort nodeRel l

theorem mem_jsSort {x : Node} {l : List Node} : x ∈ jsSort l ↔ x ∈ l :=
  (jsSort_perm l).mem_iff

/-- Two sorted lists that are permutations of each other and contain no two
distinct comparator-equivalent elements are equal. -/
theorem sorted_perm_eq : ∀ {l1 l2 : List Node}, List.Perm l1 l2 →
    List.Sorted nodeRel l1 → List.Sorted nodeRel l2 →
    (∀ x ∈ l1, ∀ y ∈ l1, nodeRel x y → nodeRel y x → x = y) → l1 = l2 := by
  intro l1
  induction l1 with
  | nil =>
    intro l2 hp _ _ _
    exact hp.nil_eq
  | cons a t ih =>
    intro l2 hp hs1 hs2 ha
    cases l2 with
    | nil => exact absurd hp.symm.nil_eq (by simp)
    | cons b t2 =>
      have hab2 : a ∈ b :: t2 := hp.subset (List.mem_cons_self a t)
      have hba1 : b ∈ a :: t := hp.symm.subset (List.mem_cons_self b t2)
      have h1 : nodeRel a b := by
        rcases List.mem_cons.mp hba1 with hb | hbt
        · exact hb ▸ nodeRel_refl a
        · exact List.rel_of_sorted_cons hs1 b hbt
      have h2 : nodeRel b a := by
        rcases List.mem_cons.mp hab2 with hb | hbt
        · exact hb ▸ nodeRel_refl a
        · exact List.rel_of_sorted_cons hs2 a hbt
      have hab : a = b :=
        ha a (List.mem_cons_self a t) b hba1 h1 h2
      subst hab
      have hp2 : List.Perm t t2 := hp.cons_inv
      have ht : t = t2 := by
        refine ih hp2 hs1.of_cons hs2.of_cons ?_
        intro x hx y hy hxy hyx
        exact ha x (List.mem_cons_of_mem a hx) y (List.mem_cons_of_mem a hy) hxy hyx
      rw [ht]

/-- Sorting is insensitive to the input permutation on lists without two
distinct comparator-equivalent elements. -/
theorem jsSort_eq_of_perm {l1 l2 : List Node} (hp : List.Perm l1 l2)
    (ha : List.Pairwise (fun x y => ¬ (nodeRel x y ∧ nodeRel y x)) l1) :
    jsSort l1 = jsSort l2 := by
  apply sorted_perm_eq ((jsSort_perm l1).trans (hp.trans (jsSort_perm l2).symm))
    (jsSort_sorted l1) (jsSort_sorted l2)
  intro x hx y hy hxy hyx
  by_contra hne
  have hx1 : x ∈ l1 := mem_jsSort.mp hx
  have hy1 : y ∈ l1 := mem_jsSort.mp hy
  have hsym : Symmetric (fun x y : Node => ¬ (nodeRel x y ∧ nodeRel y x)) :=
    fun _ _ h hc => h ⟨hc.2, hc.1⟩
  exact (ha.forall hsym hx1 hy1 hne) ⟨hxy, hyx⟩

/-! ## Permutation-of-children machinery (claim C2) -/

theorem sizeOf_node_pos (a : Node) : 0 < sizeOf a := by
  cases a <;> simp

theorem sizeOf_mem_children_lt {c : Node} {l : List Node} (hc : c ∈ l)
    (i : Option String) (nm : String) (t : NType) (co : Option Bool) (u : Option Int) :
    sizeOf c < sizeOf (Node.mk i nm t (some l) co u) := by
  have := List.sizeOf_lt_of_mem hc
  simp only [Node.mk.sizeOf_spec, Option.some.sizeOf_spec]
  omega

theorem permTree_fields {a b : Node} (h : PermTree a b) :
    a.id = b.id ∧ a.name = b.name ∧ a.type = b.type ∧ a.userOrder = b.userOrder := by
  cases a
  cases b
  simp only [PermTree] at h
  simp [h.1, h.2.1, h.2.2.1, h.2.2.2.2.1]

theorem customNodeSort_congr {a b c d : Node} (h1 : PermTree a b) (h2 : PermTree c d) :
    customNodeSort a c = customNodeSort b d := by
  obtain ⟨_, hn1, ht1, hu1⟩ := permTree_fields h1
  obtain ⟨_, hn2, ht2, hu2⟩ := permTree_fields h2
  unfold customNodeSort
  rw [hn1, ht1, hu1, hn2, ht2, hu2]

theorem nodeRel_congr {a b c d : Node} (h1 : PermTree a b) (h2 : PermTree c d) :
    nodeRel a c ↔ nodeRel b d := by
  unfold nodeRel
  rw [customNodeSort_congr h1 h2]

theorem permAligned_nil : ∀ {l2 : List Node}, PermAligned [] l2 → l2 = []
  | [], _ => rfl
  | _ :: _, h => absurd h (by simp [PermAligned])

theorem permAligned_cons {a : Node} {as l2 : List Node} (h : PermAligned (a :: as) l2) :
    ∃ b bs, l2 = b :: bs ∧ PermTree a b ∧ PermAligned as bs := by
  cases l2 with
  | nil => exact absurd h (by simp [PermAligned])
  | cons b bs =>
    simp only [PermAligned] at h
    exact ⟨b, bs, rfl, h.1, h.2⟩

theorem permAligned_length : ∀ {l1 l2 : List Node}, PermAligned l1 l2 →
    l1.length = l2.length := by
  intro l1
  induction l1 with
  | nil => intro l2 hal; rw [permAligned_nil hal]
  | cons a as ih =>
    intro l2 hal
    obtain ⟨b, bs, rfl, _, hal2⟩ := permAligned_cons hal
    simp [ih hal2]

theorem permAligned_mem : ∀ {l1 l2 : List Node} {x : Node}, PermAligned l1 l2 →
    x ∈ l2 → ∃ y ∈ l1, PermTree y x := by
  intro l1
  induction l1 with
  | nil => intro l2 x hal hx; rw [permAligned_nil hal] at hx; cases hx
  | cons a as ih =>
    intro l2 x hal hx
    obtain ⟨b, bs, rfl, hab, hal2⟩ := permAligned_cons hal
    rcases List.mem_cons.mp hx with rfl | hx2
    · exact ⟨a, List.mem_cons_self a as, hab⟩
    · obtain ⟨y, hy, hrel⟩ := ih hal2 hx2
      exact ⟨y, List.mem_cons_of_mem a hy, hrel⟩

theorem permAligned_orderedInsert : ∀ {l1 l2 : List Node} {x y : Node},
    PermTree x y → PermAligned l1 l2 →
    PermAligned (List.orderedInsert nodeRel x l1) (List.orderedInsert nodeRel y l2) := by
  intro l1
  induction l1 with
  | nil =>
    intro l2 x y hxy hal
    rw [permAligned_nil hal]
    simpa [List.orderedInsert, PermAligned] using hxy
  | cons a as ih =>
    intro l2 x y hxy hal
    obtain ⟨b, bs, rfl, hab, hal2⟩ := permAligned_cons hal
    by_cases h : nodeRel x a
    · have h2 : nodeRel y b := (nodeRel_congr hxy hab).mp h
      rw [List.orderedInsert, List.orderedInsert, if_pos h, if_pos h2]
      simp only [PermAligned]
      exact ⟨hxy, hab, hal2⟩
    · have h2 : ¬ nodeRel y b := fun hc => h ((nodeRel_congr hxy hab).mpr hc)
      rw [List.orderedInsert, List.orderedInsert, if_neg h, if_neg h2]
      simp only [PermAligned]
      exact ⟨hab, ih hxy hal2⟩

theorem permAligned_jsSort : ∀ {l1 l2 : List Node}, PermAligned l1 l2 →
    PermAligned (jsSort l1) (jsSort l2) := by
  intro l1
  induction l1 with
  | nil => intro l2 hal; rw [permAligned_nil hal]; simp [jsSort, List.insertionSort, PermAligned]
  | cons a as ih =>
    intro l2 hal
    obtain ⟨b, bs, rfl, hab, hal2⟩ := permAligned_cons hal
    simpa [jsSort, List.insertionSort] using permAligned_orderedInsert hab (ih hal2)

theorem pairwise_NE_of_permAligned : ∀ {l1 l2 : List Node}, PermAligned l1 l2 →
    List.Pairwise (fun x y => ¬ (nodeRel x y ∧ nodeRel y x)) l1 →
    List.Pairwise (fun x y => ¬ (nodeRel x y ∧ nodeRel y x)) l2 := by
  intro l1
  induction l1 with
  | nil => intro l2 hal _; rw [permAligned_nil hal]; exact List.Pairwise.nil
  | cons a as ih =>
    intro l2 hal hpw
    obtain ⟨b, bs, rfl, hab, hal2⟩ := permAligned_cons hal
    rcases List.pairwise_cons.mp hpw with ⟨hhead, htail⟩
    refine List.pairwise_cons.mpr ⟨?_, ih hal2 htail⟩
    intro y2 hy2 hc
    obtain ⟨y1, hy1, hrel⟩ := permAligned_mem hal2 hy2
    exact hhead y1 hy1 ⟨(nodeRel_congr hab hrel).mpr hc.1, (nodeRel_congr hrel hab).mpr hc.2⟩

mutual

theorem permTree_refl : ∀ n : Node, PermTree n n
  | .mk i nm t none co u => by simp [PermTree, PermChildren]
  | .mk i nm t (some l) co u => by
      have hch : PermChildren (some l) (some l) := by
        simp only [PermChildren]
        exact ⟨l, permAligned_refl l, List.Perm.refl l⟩
      simp [PermTree, hch]

theorem permAligned_refl : ∀ l : List Node, PermAligned l l
  | [] => by simp [PermAligned]
  | c :: rest => by
      simp [PermAligned, permTree_refl c, permAligned_refl rest]

end

theorem equivFree_parts {i : Option String} {nm : String} {t : NType} {l : List Node}
    {co : Option Bool} {u : Option Int}
    (h : equivFree (Node.mk i nm t (some l) co u) = true) :
    pairwiseNonEquiv l = true ∧ equivFreeList l = true := by
  simpa [equivFree] using h

theorem equivFreeList_mem : ∀ {l : List Node} {c : Node}, equivFreeList l = true →
    c ∈ l → equivFree c = true := by
  intro l
  induction l with
  | nil => intro c _ hc; cases hc
  | cons a as ih =>
    intro c h hc
    simp only [equivFreeList, Bool.and_eq_true] at h
    rcases List.mem_cons.mp hc with rfl | hc2
    · exact h.1
    · exact ih h.2 hc2

theorem pairwiseNonEquiv_pairwise : ∀ {l : List Node}, pairwiseNonEquiv l = true →
    List.Pairwise (fun x y => ¬ (nodeRel x y ∧ nodeRel y x)) l := by
  intro l
  induction l with
  | nil => intro _; exact List.Pairwise.nil
  | cons c rest ih =>
    intro h
    simp only [pairwiseNonEquiv, Bool.and_eq_true, List.all_eq_true] at h
    refine List.pairwise_cons.mpr ⟨?_, ih h.2⟩
    intro y hy hc
    have hx := h.1 y hy
    simp at hx
    rcases hx with h1 | h1
    · exact h1 hc.1
    · exact h1 hc.2

theorem asciiChildren_congr_of : ∀ (l1 l2 : List Node), PermAligned l1 l2 →
    (∀ c ∈ l1, ∀ d, PermTree c d →
      ∀ ind last, generateAsciiTree c ind last = generateAsciiTree d ind last) →
    ∀ ind, asciiChildren l1 ind = asciiChildren l2 ind := by
  intro l1
  induction l1 with
  | nil =>
    intro l2 hal _ ind
    rw [permAligned_nil hal]
  | cons c rest ih =>
    intro l2 hal hrec ind
    obtain ⟨d, rest2, rfl, hcd, hal2⟩ := permAligned_cons hal
    simp only [asciiChildren]
    have hie : rest.isEmpty = rest2.isEmpty := by
      have := permAligned_length hal2
      cases rest <;> cases rest2 <;> simp_all
    rw [hie, hrec c (List.mem_cons_self c rest) d hcd ind rest2.isEmpty,
      ih rest2 hal2 (fun x hx => hrec x (List.mem_cons_of_mem c hx)) ind]

theorem markdownChildren_congr_of : ∀ (l1 l2 : List Node), PermAligned l1 l2 →
    (∀ c ∈ l1, ∀ d, PermTree c d →
      ∀ level, generateMarkdownTree c level = generateMarkdownTree d level) →
    ∀ level, markdownChildren l1 level = markdownChildren l2 level := by
  intro l1
  induction l1 with
  | nil =>
    intro l2 hal _ level
    rw [permAligned_nil hal]
  | cons c rest ih =>
    intro l2 hal hrec level
    obtain ⟨d, rest2, rfl, hcd, hal2⟩ := permAligned_cons hal
    simp only [markdownChildren]
    rw [hrec c (List.mem_cons_self c rest) d hcd level,
      ih rest2 hal2 (fun x hx => hrec x (List.mem_cons_of_mem c hx)) level]

theorem ascii_permTree_fuel : ∀ (k : Nat), ∀ (a b : Node), sizeOf a ≤ k → PermTree a b →
    equivFree a = true →
    ∀ ind last, generateAsciiTree a ind last = generateAsciiTree b ind last := by
  intro k
  induction k with
  | zero =>
    intro a b hk
    exact absurd (Nat.le_zero.mp hk) (by have := sizeOf_node_pos a; omega)
  | succ k ih =>
    intro a b hk h hf ind last
    cases a with | mk i1 n1 t1 c1 co1 u1 =>
    cases b with | mk i2 n2 t2 c2 co2 u2 =>
    simp only [PermTree] at h
    obtain ⟨hi, hn, ht, hco, hu, hch⟩ := h
    subst hi hn ht hco hu
    cases c1 with
    | none =>
      cases c2 with
      | none => rfl
      | some l2 => exact absurd hch (by simp [PermChildren])
    | some l1 =>
      cases c2 with
      | none => exact absurd hch (by simp [PermChildren])
      | some l2 =>
        simp only [PermChildren] at hch
        obtain ⟨l, hal, hperm⟩ := hch
        have hpw1 := pairwiseNonEquiv_pairwise (equivFree_parts hf).1
        have hsorteq : jsSort l2 = jsSort l :=
          (jsSort_eq_of_perm hperm (pairwise_NE_of_permAligned hal hpw1)).symm
        have halS : PermAligned (jsSort l1) (jsSort l) := permAligned_jsSort hal
        have hkids : ∀ s, asciiChildren (jsSort l1) s = asciiChildren (jsSort l2) s := by
          intro s
          rw [hsorteq]
          refine asciiChildren_congr_of _ _ halS ?_ s
          intro c hc d hcd ind2 last2
          have hcl1 : c ∈ l1 := mem_jsSort.mp hc
          refine ih c d ?_ hcd (equivFreeList_mem (equivFree_parts hf).2 hcl1) ind2 last2
          have := sizeOf_mem_children_lt hcl1 i1 n1 t1 co1 u1
          omega
        simp only [generateAsciiTree, Node.id_mk, Node.name_mk, Node.kids_mk, optList_some]
        split_ifs <;> rw [hkids]

theorem markdown_permTree_fuel : ∀ (k : Nat), ∀ (a b : Node), sizeOf a ≤ k →
    PermTree a b → equivFree a = true →
    ∀ level, generateMarkdownTree a level = generateMarkdownTree b level := by
  intro k
  induction k with
  | zero =>
    intro a b hk
    exact absurd (Nat.le_zero.mp hk) (by have := sizeOf_node_pos a; omega)
  | succ k ih =>
    intro a b hk h hf level
    cases a with | mk i1 n1 t1 c1 co1 u1 =>
    cases b with | mk i2 n2 t2 c2 co2 u2 =>
    simp only [PermTree] at h
    obtain ⟨hi, hn, ht, hco, hu, hch⟩ := h
    subst hi hn ht hco hu
    cases c1 with
    | none =>
      cases c2 with
      | none => rfl
      | some l2 => exact absurd hch (by simp [PermChildren])
    | some l1 =>
      cases c2 with
      | none => exact absurd hch (by simp [PermChildren])
      | some l2 =>
        simp only [PermChildren] at hch
        obtain ⟨l, hal, hperm⟩ := hch
        have hpw1 := pairwiseNonEquiv_pairwise (equivFree_parts hf).1
        have hsorteq : jsSort l2 = jsSort l :=
          (jsSort_eq_of_perm hperm (pairwise_NE_of_permAligned hal hpw1)).symm
        have halS : PermAligned (jsSort l1) (jsSort l) := permAligned_jsSort hal
        have hkids : markdownChildren (jsSort l1) (level + 1) =
            markdownChildren (jsSort l2) (level + 1) := by
          rw [hsorteq]
          refine markdownChildren_congr_of _ _ halS ?_ (level + 1)
          intro c hc d hcd level2
          have hcl1 : c ∈ l1 := mem_jsSort.mp hc
          refine ih c d ?_ hcd (equivFreeList_mem (equivFree_parts hf).2 hcl1) level2
          have := sizeOf_mem_children_lt hcl1 i1 n1 t1 co1 u1
          omega
        simp only [generateMarkdownTree, Node.name_mk, Node.kids_mk, optList_some]
        rw [hkids]

/-! ## Rendering factors through `stripView` (save/load round trip, claim C6) -/

theorem stripView_fields (n : Node) :
    (stripView n).name = n.name ∧ (stripView n).type = n.type ∧
      (stripView n).userOrder = n.userOrder := by
  cases n with
  | mk i nm t c co u => cases c <;> simp [stripView]

theorem customNodeSort_stripView (a b : Node) :
    customNodeSort (stripView a) (stripView b) = customNodeSort a b := by
  obtain ⟨hn1, ht1, hu1⟩ := stripView_fields a
  obtain ⟨hn2, ht2, hu2⟩ := stripView_fields b
  unfold customNodeSort
  rw [hn1, ht1, hu1, hn2, ht2, hu2]

theorem nodeRel_stripView (a b : Node) : nodeRel (stripView a) (stripView b) ↔ nodeRel a b := by
  unfold nodeRel
  rw [customNodeSort_stripView]

theorem stripViewList_eq_map : ∀ l : List Node, stripViewList l = l.map stripView
  | [] => rfl
  | c :: rest => by simp [stripViewList, stripViewList_eq_map rest]

theorem orderedInsert_stripView (x : Node) : ∀ l : List Node,
    List.orderedInsert nodeRel (stripView x) (l.map stripView) =
      (List.orderedInsert nodeRel x l).map stripView := by
  intro l
  induction l with
  | nil => simp [List.orderedInsert]
  | cons a as ih =>
    simp only [List.map_cons, List.orderedInsert]
    by_cases h : nodeRel x a
    · rw [if_pos h, if_pos ((nodeRel_stripView x a).mpr h)]
      simp
    · rw [if_neg h, if_neg (fun hc => h ((nodeRel_stripView x a).mp hc))]
      simp [ih]

theorem jsSort_stripView : ∀ l : List Node, jsSort (l.map stripView) = (jsSort l).map stripView := by
  intro l
  induction l with
  | nil => rfl
  | cons a as ih =>
    show List.orderedInsert nodeRel (stripView a) (jsSort (as.map stripView)) =
      (List.orderedInsert nodeRel a (jsSort as)).map stripView
    rw [ih, orderedInsert_stripView]

theorem stripView_id_flag (n : Node) :
    (stripView n).id = some "root" ↔ n.id = some "root" := by
  cases n with
  | mk i nm t c co u =>
    cases c <;> (by_cases h : i = some "root" <;> simp [stripView, h])

theorem asciiChildren_stripView_of (ind : String) : ∀ l : List Node,
    (∀ c ∈ l, ∀ ind2 last2,
      generateAsciiTree (stripView c) ind2 last2 = generateAsciiTree c ind2 last2) →
    asciiChildren (l.map stripView) ind = asciiChildren l ind := by
  intro l
  induction l with
  | nil => intro _; rfl
  | cons c rest ih =>
    intro hrec
    have hie : (rest.map stripView).isEmpty = rest.isEmpty := by cases rest <;> simp
    simp only [List.map_cons, asciiChildren, hie]
    rw [hrec c (List.mem_cons_self c rest) ind, ih (fun x hx => hrec x (List.mem_cons_of_mem c hx))]

theorem markdownChildren_stripView_of (level : Nat) : ∀ l : List Node,
    (∀ c ∈ l, ∀ level2,
      generateMarkdownTree (stripView c) level2 = generateMarkdownTree c level2) →
    markdownChildren (l.map stripView) level = markdownChildren l level := by
  intro l
  induction l with
  | nil => intro _; rfl
  | cons c rest ih =>
    intro hrec
    simp only [List.map_cons, markdownChildren]
    rw [hrec c (List.mem_cons_self c rest) level,
      ih (fun x hx => hrec x (List.mem_cons_of_mem c hx))]

theorem ascii_stripView_fuel : ∀ (k : Nat), ∀ (n : Node), sizeOf n ≤ k →
    ∀ ind last, generateAsciiTree (stripView n) ind last = generateAsciiTree n ind last := by
  intro k
  induction k with
  | zero =>
    intro n hk
    exact absurd (Nat.le_zero.mp hk) (by have := sizeOf_node_pos n; omega)
  | succ k ih =>
    intro n hk ind last
    cases n with | mk i nm t c co u =>
    have hflag := stripView_id_flag (Node.mk i nm t c co u)
    cases c with
    | none =>
      simp only [stripView]
      simp only [generateAsciiTree, Node.id_mk, Node.name_mk, Node.kids_mk, optList_none]
      simp only [stripView, Node.id_mk] at hflag
      by_cases h : i = some "root"
      · rw [if_pos (hflag.mpr h), if_pos h]
      · rw [if_neg (fun hc => h (hflag.mp hc)), if_neg h]
    | some l =>
      have hkid : ∀ s, asciiChildren (jsSort (stripViewList l)) s = asciiChildren (jsSort l) s := by
        intro s
        rw [stripViewList_eq_map, jsSort_stripView]
        refine asciiChildren_stripView_of s (jsSort l) ?_
        intro x hx ind2 last2
        refine ih x ?_ ind2 last2
        have := sizeOf_mem_children_lt (mem_jsSort.mp hx) i nm t co u
        omega
      simp only [stripView]
      simp only [generateAsciiTree, Node.id_mk, Node.name_mk, Node.kids_mk, optList_some]
      simp only [stripView, Node.id_mk] at hflag
      by_cases h : i = some "root"
      · rw [if_pos (hflag.mpr h), if_pos h, hkid]
      · rw [if_neg (fun hc => h (hflag.mp hc)), if_neg h, hkid]

theorem markdown_stripView_fuel : ∀ (k : Nat), ∀ (n : Node), sizeOf n ≤ k →
    ∀ level, generateMarkdownTree (stripView n) level = generateMarkdownTree n level := by
  intro k
  induction k with
  | zero =>
    intro n hk
    exact absurd (Nat.le_zero.mp hk) (by have := sizeOf_node_pos n; omega)
  | succ k ih =>
    intro n hk level
    cases n with | mk i nm t c co u =>
    cases c with
    | none =>
      simp only [stripView]
      simp only [generateMarkdownTree, Node.name_mk, Node.kids_mk, optList_none]
    | some l =>
      have hkid : markdownChildren (jsSort (stripViewList l)) (level + 1) =
          markdownChildren (jsSort l) (level + 1) := by
        rw [stripViewList_eq_map, jsSort_stripView]
        refine markdownChildren_stripView_of (level + 1) (jsSort l) ?_
        intro x hx level2
        refine ih x ?_ level2
        have := sizeOf_mem_children_lt (mem_jsSort.mp hx) i nm t co u
        omega
      simp only [stripView]
      simp only [generateMarkdownTree, Node.name_mk, Node.kids_mk, optList_some]
      rw [hkid]

theorem ascii_stripView (n : Node) (ind : String) (last : Bool) :
    generateAsciiTree (stripView n) ind last = generateAsciiTree n ind last :=
  ascii_stripView_fuel (sizeOf n) n le_rfl ind last

/-! ## The save/load round trip preserves `stripView` -/

theorem nodeId_ne_root (k : Nat) : ("node-" ++ toString k) ≠ "root" := by
  intro h
  have h2 := congrArg String.length h
  rw [String.length_append] at h2
  have h5 : ("node-" : String).length = 5 := rfl
  have h4 : ("root" : String).length = 4 := rfl
  omega

mutual

theorem stripView_assignIds : ∀ (m : Node) (k : Nat),
    stripView ((assignIds m k).1) = stripView m
  | .mk id nm t c co u, k => by
    have hfresh : ∀ k2 : Nat, ¬ (("node-" ++ toString k2 : String) = "root") := fun k2 =>
      nodeId_ne_root k2
    cases t <;> cases c <;> cases id <;>
      simp [assignIds, stripView, hfresh, stripView_assignIdsList] <;>
      (rename_i s; by_cases hs : s = "" <;>
        simp [hs, hfresh, stripView, stripView_assignIdsList] <;>
        (by_cases hr : s = "root" <;> simp [hr, stripView, stripView_assignIdsList]))

theorem stripView_assignIdsList : ∀ (l : List Node) (k : Nat),
    stripViewList ((assignIdsList l k).1) = stripViewList l
  | [], _ => rfl
  | c :: rest, k => by
    simp [assignIdsList, stripViewList, stripView_assignIds c k,
      stripView_assignIdsList rest (assignIds c k).2]

end

mutual

theorem stripView_clean : ∀ m : Node, countId m "root" = 0 →
    stripView (cleanNodeForSave m) = stripView m
  | .mk i nm t none co u, h => by
    have hi : ¬ i = some "root" := by
      by_contra hc
      simp [countId, hc] at h
    simp [cleanNodeForSave, stripView, hi]
  | .mk i nm t (some l) co u, h => by
    have hi : ¬ i = some "root" := by
      by_contra hc
      simp [countId, hc] at h
    have hl : countIdList l "root" = 0 := by
      simp [countId] at h
      omega
    simp [cleanNodeForSave, stripView, hi, stripView_cleanList l hl]

theorem stripView_cleanList : ∀ l : List Node, countIdList l "root" = 0 →
    stripViewList (cleanListForSave l) = stripViewList l
  | [], _ => rfl
  | c :: rest, h => by
    have hc : countId c "root" = 0 := by
      simp [countIdList] at h
      omega
    have hr : countIdList rest "root" = 0 := by
      simp [countIdList] at h
      omega
    simp [cleanListForSave, stripViewList, stripView_clean c hc, stripView_cleanList rest hr]

end

/-! ## Deletion machinery (claim C1) -/

mutual

theorem find_of_countId_pos : ∀ (n : Node) (i : String), 0 < countId n i →
    (findNodeById n i).isSome = true
  | .mk id nm t none co u, i, h => by
    by_cases hid : id = some i
    · simp [findNodeById, hid]
    · simp [countId, hid] at h
  | .mk id nm t (some l) co u, i, h => by
    by_cases hid : id = some i
    · simp [findNodeById, hid]
    · have hl : 0 < countIdList l i := by
        simp [countId, hid] at h
        omega
      have := findList_of_countId_pos l i hl
      simpa [findNodeById, hid] using this

theorem findList_of_countId_pos : ∀ (l : List Node) (i : String), 0 < countIdList l i →
    (findInChildren l i).isSome = true
  | [], i, h => by simp [countIdList] at h
  | c :: rest, i, h => by
    by_cases hc : 0 < countId c i
    · have := find_of_countId_pos c i hc
      cases hfc : findNodeById c i with
      | none => rw [hfc] at this; simp at this
      | some x => simp [findInChildren, hfc]
    · have hr : 0 < countIdList rest i := by
        simp [countIdList] at h
        omega
      have := findList_of_countId_pos rest i hr
      cases hfc : findNodeById c i with
      | none => simpa [findInChildren, hfc] using this
      | some x => simp [findInChildren, hfc]

end

theorem countId_pos_of_id {n : Node} {i : String} (h : n.id = some i) : 0 < countId n i := by
  cases n with
  | mk id nm t c co u =>
    simp at h
    cases c <;> simp [countId, h]

theorem countList0_mem : ∀ {l : List Node} {c : Node} {i : String},
    countIdList l i = 0 → c ∈ l → countId c i = 0 := by
  intro l
  induction l with
  | nil => intro c i _ hc; cases hc
  | cons a rest ih =>
    intro c i h hc
    have h2 : countId a i = 0 ∧ countIdList rest i = 0 := by
      simp [countIdList] at h
      omega
    rcases List.mem_cons.mp hc with rfl | hc2
    · exact h2.1
    · exact ih h2.2 hc2

mutual

theorem eraseAll_of_count0 : ∀ (n : Node) (i : String), countId n i = 0 → eraseAll n i = n
  | .mk id nm t none co u, i, _ => by simp [eraseAll]
  | .mk id nm t (some l) co u, i, h => by
    have hl : countIdList l i = 0 := by
      simp [countId] at h
      omega
    simp [eraseAll, eraseAllList_of_count0 l i hl]

theorem eraseAllList_of_count0 : ∀ (l : List Node) (i : String), countIdList l i = 0 →
    eraseAllList l i = l
  | [], _, _ => rfl
  | c :: rest, i, h => by
    have hc : countId c i = 0 := by
      simp [countIdList] at h
      omega
    have hrest : countIdList rest i = 0 := by
      simp [countIdList] at h
      omega
    have hid : ¬ c.id = some i := fun hid => by
      have := countId_pos_of_id hid
      omega
    simp [eraseAllList, hid, eraseAll_of_count0 c i hc, eraseAllList_of_count0 rest i hrest]

end

theorem filter_id_of_count0 (l : List Node) (i : String) (h : countIdList l i = 0) :
    l.filter (fun c => ¬ (c.id == some i)) = l := by
  apply List.filter_eq_self.mpr
  intro a ha
  have h0 := countList0_mem h ha
  have hid : ¬ a.id = some i := fun hid => by
    have := countId_pos_of_id hid
    omega
  simp [hid]

theorem filter_eq_eraseAllList : ∀ (l : List Node) (i : String), countIdList l i = 1 →
    l.any (fun c => c.id == some i) = true →
    l.filter (fun c => ¬ (c.id == some i)) = eraseAllList l i := by
  intro l i
  induction l with
  | nil => intro _ hany; simp at hany
  | cons c rest ih =>
    intro h hany
    have hsum : countId c i + countIdList rest i = 1 := by
      simpa [countIdList] using h
    by_cases hcid : c.id = some i
    · have hcpos := countId_pos_of_id hcid
      have hrest : countIdList rest i = 0 := by omega
      rw [List.filter_cons, eraseAllList, if_pos hcid, if_neg (by simp [hcid]),
        filter_id_of_count0 rest i hrest, eraseAllList_of_count0 rest i hrest]
    · have hanyrest : rest.any (fun c2 => c2.id == some i) = true := by
        rcases List.any_eq_true.mp hany with ⟨x, hx, hxid⟩
        rcases List.mem_cons.mp hx with rfl | hx2
        · exact absurd (by simpa using hxid) hcid
        · exact List.any_eq_true.mpr ⟨x, hx2, hxid⟩
      have hrestpos : 0 < countIdList rest i := by
        rcases List.any_eq_true.mp hanyrest with ⟨x, hx, hxid⟩
        have h1 := countId_pos_of_id (show x.id = some i by simpa using hxid)
        by_contra hc
        have h0 : countIdList rest i = 0 := by omega
        have := countList0_mem h0 hx
        omega
      have hc0 : countId c i = 0 := by omega
      have hrest1 : countIdList rest i = 1 := by omega
      rw [List.filter_cons, eraseAllList, if_neg hcid, if_pos (by simp [hcid]),
        ih hrest1 hanyrest, eraseAll_of_count0 c i hc0]

mutual

theorem deleteIn_none_of_count0 : ∀ (n : Node) (i : String), countId n i = 0 →
    deleteIn n i = none
  | .mk id nm t none co u, i, _ => by simp [deleteIn]
  | .mk id nm t (some l) co u, i, h => by
    have hl : countIdList l i = 0 := by
      simp [countId] at h
      omega
    have hany : ¬ l.any (fun c => c.id == some i) = true := by
      intro hc
      rcases List.any_eq_true.mp hc with ⟨c, hcl, hcid⟩
      have hci : c.id = some i := by simpa using hcid
      have h1 := countId_pos_of_id hci
      have h2 := countList0_mem hl hcl
      omega
    simp [deleteIn, hany, deleteInList_none_of_count0 l i hl]

theorem deleteInList_none_of_count0 : ∀ (l : List Node) (i : String), countIdList l i = 0 →
    deleteInChildren l i = none
  | [], _, _ => rfl
  | c :: rest, i, h => by
    have hc : countId c i = 0 := by
      simp [countIdList] at h
      omega
    have hrest : countIdList rest i = 0 := by
      simp [countIdList] at h
      omega
    simp [deleteInChildren, deleteIn_none_of_count0 c i hc,
      deleteInList_none_of_count0 rest i hrest]

end

mutual

theorem deleteIn_eq_eraseAll : ∀ (n : Node) (i : String), countId n i = 1 →
    ¬ n.id = some i → deleteIn n i = some (eraseAll n i)
  | .mk id nm t none co u, i, h, hid => by
    simp [Node.id_mk] at hid
    simp [countId, hid] at h
  | .mk id nm t (some l) co u, i, h, hid => by
    simp [Node.id_mk] at hid
    have hl : countIdList l i = 1 := by
      simp [countId, hid] at h
      omega
    by_cases hany : l.any (fun c => c.id == some i) = true
    · rw [deleteIn, if_pos hany]
      rw [eraseAll]
      rw [filter_eq_eraseAllList l i hl hany]
    · have hnodirect : ∀ c ∈ l, ¬ c.id = some i := by
        intro c hc hcid
        exact hany (List.any_eq_true.mpr ⟨c, hc, by simpa using hcid⟩)
      rw [deleteIn, if_neg hany, deleteInList_eq l i hl hnodirect]
      rw [eraseAll]

theorem deleteInList_eq : ∀ (l : List Node) (i : String), countIdList l i = 1 →
    (∀ c ∈ l, ¬ c.id = some i) → deleteInChildren l i = some (eraseAllList l i)
  | [], i, h, _ => by simp [countIdList] at h
  | c :: rest, i, h, hnd => by
    have hcid : ¬ c.id = some i := hnd c (List.mem_cons_self c rest)
    have hsum : countId c i + countIdList rest i = 1 := by
      simpa [countIdList] using h
    by_cases hc1 : countId c i = 1
    · have hrest : countIdList rest i = 0 := by omega
      rw [deleteInChildren, deleteIn_eq_eraseAll c i hc1 hcid]
      rw [eraseAllList, if_neg hcid, eraseAllList_of_count0 rest i hrest]
    · have hc0 : countId c i = 0 := by omega
      have hrest : countIdList rest i = 1 := by omega
      rw [deleteInChildren, deleteIn_none_of_count0 c i hc0,
        deleteInList_eq rest i hrest (fun x hx => hnd x (List.mem_cons_of_mem c hx))]
      rw [eraseAllList, if_neg hcid, eraseAll_of_count0 c i hc0]

end

mutual

theorem countId_eraseAll : ∀ (n : Node) (i : String), ¬ n.id = some i →
    countId (eraseAll n i) i = 0
  | .mk id nm t none co u, i, hid => by
    simp [Node.id_mk] at hid
    simp [eraseAll, countId, hid]
  | .mk id nm t (some l) co u, i, hid => by
    simp [Node.id_mk] at hid
    simp [eraseAll, countId, hid, countId_eraseAllList l i]

theorem countId_eraseAllList : ∀ (l : List Node) (i : String),
    countIdList (eraseAllList l i) i = 0
  | [], _ => rfl
  | c :: rest, i => by
    by_cases hcid : c.id = some i
    · simp [eraseAllList, hcid, countId_eraseAllList rest i]
    · simp [eraseAllList, hcid, countIdList, countId_eraseAll c i hcid,
        countId_eraseAllList rest i]

end

theorem deleteNode_eq_eraseAll (t : Node) (i : String) (hc : countId t i = 1)
    (hroot : ¬ t.id = some i) : deleteNode t i = eraseAll t i := by
  unfold deleteNode
  have hfind := find_of_countId_pos t i (by omega)
  cases hf : findNodeById t i with
  | none => rw [hf] at hfind; simp at hfind
  | some nd =>
    rw [deleteIn_eq_eraseAll t i hc hroot]

/-! ## Rename machinery (claims C7, C8) -/

mutual

theorem pinnedInv_mapById_rename : ∀ (n : Node) (i nn : String) (now : Int),
    pinnedInv n = true → pinnedInv (mapById n i (renameUpdate nn now)) = true
  | .mk id nm t none co u, i, nn, now, h => by
    by_cases hid : id = some i
    · by_cases hnn : nn = "..." <;> simp [mapById, hid, renameUpdate, pinnedInv, hnn]
    · simpa [mapById, hid, pinnedInv] using h
  | .mk id nm t (some l) co u, i, nn, now, h => by
    have hparts : (u.isSome == decide (nm = "...")) = true ∧ pinnedInvList l = true := by
      simpa [pinnedInv] using h
    have hl := pinnedInvList_mapListById_rename l i nn now hparts.2
    by_cases hid : id = some i
    · by_cases hnn : nn = "..."
      · subst hnn
        simp [mapById, hid, renameUpdate, pinnedInv, hl]
      · simp [mapById, hid, renameUpdate, pinnedInv, hnn, hl]
    · simp [mapById, hid, pinnedInv, hl, hparts.1]

theorem pinnedInvList_mapListById_rename : ∀ (l : List Node) (i nn : String) (now : Int),
    pinnedInvList l = true → pinnedInvList (mapListById l i (renameUpdate nn now)) = true
  | [], _, _, _, _ => rfl
  | c :: rest, i, nn, now, h => by
    have hparts : pinnedInv c = true ∧ pinnedInvList rest = true := by
      simpa [pinnedInvList] using h
    simp [mapListById, pinnedInvList, pinnedInv_mapById_rename c i nn now hparts.1,
      pinnedInvList_mapListById_rename rest i nn now hparts.2]

end

/-- A successful `saveName` is exactly the `mapById` update with the trimmed
name (and the pinned-order rule). -/
theorem saveName_success {tree : Node} {nodeId raw : String} {now : Int} {t2 : Node}
    (h : saveName tree nodeId raw now = (t2, none)) :
    t2 = mapById tree nodeId (renameUpdate (jsTrim raw) now) := by
  unfold saveName at h
  by_cases h1 : jsTrim raw = ""
  · simp [h1] at h
  · rw [if_neg h1] at h
    cases hf : findNodeById tree nodeId with
    | none => rw [hf] at h; simp at h
    | some node =>
      rw [hf] at h
      by_cases h2 : isDuplicateName tree nodeId (jsTrim raw) node.type = true
      · simp [h2] at h
      · simp [h2] at h
        exact h.symm


/-! ## Scanner lemmas (claims C4, C5, C9) -/

theorem combinedIgnore_dir_eq (ign : List String) (nm : String) (gi : Option (List String))
    (es es2 : List FSEntry) (ug : Bool) :
    combinedIgnore ign (.dir nm gi es) ug = combinedIgnore ign (.dir nm gi es2) ug := by
  cases gi <;> rfl

mutual

theorem readDir_false_ok : ∀ (e : FSEntry) (ign : List String) (ug : Bool),
    ∃ r, readDirectoryRecursive e false ign ug = Except.ok r
  | .file nm, ign, ug => by
    by_cases h : nm ∈ combinedIgnore ign (.file nm) ug
    · exact ⟨none, by simp [readDirectoryRecursive, FSEntry.name, h]⟩
    · exact ⟨some (Node.mk none nm NType.file none none none),
        by simp [readDirectoryRecursive, FSEntry.name, h]⟩
  | .statError nm, ign, ug => by
    by_cases h : nm ∈ combinedIgnore ign (.statError nm) ug
    · exact ⟨none, by simp [readDirectoryRecursive, FSEntry.name, h]⟩
    · exact ⟨some (Node.mk none (nm ++ " (inaccessible)") NType.error none none none),
        by simp [readDirectoryRecursive, FSEntry.name, h]⟩
  | .readError nm gi, ign, ug => by
    by_cases h : nm ∈ combinedIgnore ign (.readError nm gi) ug
    · exact ⟨none, by simp [readDirectoryRecursive, FSEntry.name, h]⟩
    · exact ⟨some (Node.mk none (nm ++ " (cannot read)") NType.error none none none),
        by simp [readDirectoryRecursive, FSEntry.name, h]⟩
  | .dir nm gi es, ign, ug => by
    obtain ⟨ks, hks⟩ := readEntries_ok es (combinedIgnore ign (.dir nm gi es) ug) ug
    by_cases h : nm ∈ combinedIgnore ign (.dir nm gi es) ug
    · exact ⟨none, by simp [readDirectoryRecursive, FSEntry.name, h]⟩
    · exact ⟨some (Node.mk none nm NType.folder (some ks) none none),
        by simp [readDirectoryRecursive, FSEntry.name, h, hks]⟩

theorem readEntries_ok : ∀ (es : List FSEntry) (comb : List String) (ug : Bool),
    ∃ ks, readEntries es comb ug = Except.ok ks
  | [], _, _ => ⟨[], rfl⟩
  | ent :: rest, comb, ug => by
    obtain ⟨ks, hks⟩ := readEntries_ok rest comb ug
    by_cases hm : ent.name ∈ comb
    · exact ⟨ks, by simp [readEntries, hm, hks]⟩
    · obtain ⟨r, hr⟩ := readDir_false_ok ent comb ug
      cases r with
      | none => exact ⟨ks, by simp [readEntries, hm, hr, hks]⟩
      | some child => exact ⟨child :: ks, by simp [readEntries, hm, hr, hks]⟩

end

theorem readDir_dir_eq (nm : String) (gi : Option (List String)) (es : List FSEntry)
    (r : Bool) (ign : List String) (ug : Bool)
    (h : r = true ∨ ¬ nm ∈ combinedIgnore ign (.dir nm gi es) ug) :
    ∃ kids, readEntries es (combinedIgnore ign (.dir nm gi es) ug) ug = Except.ok kids ∧
      readDirectoryRecursive (.dir nm gi es) r ign ug =
        Except.ok (some (Node.mk none nm NType.folder (some kids) none none)) := by
  obtain ⟨ks, hks⟩ := readEntries_ok es (combinedIgnore ign (.dir nm gi es) ug) ug
  refine ⟨ks, hks, ?_⟩
  rcases h with h | h
  · subst h
    simp [readDirectoryRecursive, FSEntry.name, hks]
  · simp [readDirectoryRecursive, FSEntry.name, h, hks]

theorem readEntries_filter_ignored (es : List FSEntry) (comb : List String) (ug : Bool)
    (n : String) (hn : n ∈ comb) :
    readEntries (es.filter (fun e2 => !(e2.name == n))) comb ug =
      readEntries es comb ug := by
  induction es with
  | nil => rfl
  | cons ent rest ih =>
    by_cases he : ent.name = n
    · have hm : ent.name ∈ comb := he ▸ hn
      rw [List.filter_cons, if_neg (by simp [he]), ih]
      simp [readEntries, hm]
    · rw [List.filter_cons, if_pos (by simp [he])]
      by_cases hm : ent.name ∈ comb
      · simp [readEntries, hm, ih]
      · simp [readEntries, hm, ih]

theorem readDir_filter_ignored (nm : String) (gi : Option (List String)) (es : List FSEntry)
    (r : Bool) (ign : List String) (ug : Bool) (n : String)
    (hn : n ∈ combinedIgnore ign (.dir nm gi es) ug) :
    readDirectoryRecursive (.dir nm gi (es.filter (fun e2 => !(e2.name == n)))) r ign ug =
      readDirectoryRecursive (.dir nm gi es) r ign ug := by
  have hcomb := combinedIgnore_dir_eq ign nm gi (es.filter (fun e2 => !(e2.name == n))) es ug
  by_cases hskip : r = false ∧ nm ∈ combinedIgnore ign (.dir nm gi es) ug
  · have h1 : readDirectoryRecursive (.dir nm gi (es.filter (fun e2 => !(e2.name == n)))) r ign ug =
        Except.ok none := by
      have hm : nm ∈ combinedIgnore ign (.dir nm gi (es.filter (fun e2 => !(e2.name == n)))) ug := by
        rw [hcomb]
        exact hskip.2
      simp only [FSEntry.name] at hm
      simp [readDirectoryRecursive, FSEntry.name, hskip.1, hm]
    have h2 : readDirectoryRecursive (.dir nm gi es) r ign ug = Except.ok none := by
      simp [readDirectoryRecursive, FSEntry.name, hskip.1, hskip.2]
    rw [h1, h2]
  · have hside : r = true ∨ ¬ nm ∈ combinedIgnore ign (.dir nm gi es) ug := by
      by_cases hr : r = true
      · exact Or.inl hr
      · refine Or.inr fun hm => hskip ⟨by cases r <;> simp_all, hm⟩
    have hside2 : r = true ∨
        ¬ nm ∈ combinedIgnore ign (.dir nm gi (es.filter (fun e2 => !(e2.name == n)))) ug := by
      rcases hside with h | h
      · exact Or.inl h
      · exact Or.inr (by rw [hcomb]; exact h)
    obtain ⟨kids1, hk1, hd1⟩ :=
      readDir_dir_eq nm gi (es.filter (fun e2 => !(e2.name == n))) r ign ug hside2
    obtain ⟨kids, hk, hd⟩ := readDir_dir_eq nm gi es r ign ug hside
    rw [hcomb] at hk1
    have hre := readEntries_filter_ignored es (combinedIgnore ign (.dir nm gi es) ug) ug n hn
    rw [hre, hk] at hk1
    cases hk1
    rw [hd1, hd]

theorem readEntries_append {es1 es2 : List FSEntry} {comb : List String} {ug : Bool}
    {k1 k2 : List Node} (h1 : readEntries es1 comb ug = Except.ok k1)
    (h2 : readEntries es2 comb ug = Except.ok k2) :
    readEntries (es1 ++ es2) comb ug = Except.ok (k1 ++ k2) := by
  induction es1 generalizing k1 with
  | nil =>
    rw [readEntries] at h1
    cases h1
    simpa using h2
  | cons ent rest ih =>
    rw [List.cons_append]
    by_cases hm : ent.name ∈ comb
    · rw [readEntries] at h1
      rw [if_pos hm] at h1
      have := ih h1
      simp [readEntries, hm, this]
    · rw [readEntries] at h1
      rw [if_neg hm] at h1
      cases hr : readDirectoryRecursive ent false comb ug with
      | error msg => rw [hr] at h1; cases h1
      | ok ro =>
        rw [hr] at h1
        cases ro with
        | none =>
          have := ih h1
          simp [readEntries, hm, hr, this]
        | some child =>
          cases hre : readEntries rest comb ug with
          | error msg => rw [hre] at h1; cases h1
          | ok ks =>
            rw [hre] at h1
            cases h1
            have := ih hre
            simp [readEntries, hm, hr, this]

theorem generateTree_dir_ok (nm : String) (gi : Option (List String)) (es : List FSEntry)
    (ign : List String) (ug : Bool) :
    ∃ kids, generateTree (.dir nm gi es) ign ug =
      Except.ok (Node.mk none nm NType.folder (some kids) none none) := by
  obtain ⟨ks, _, hdir⟩ := readDir_dir_eq nm gi es true ign ug (Or.inl rfl)
  exact ⟨ks, by simp [generateTree, hdir]⟩

/-! ## Claim theorems -/

/-- Claim C1: the delete action never removes the root node: invoked with the
root's id it clears the root's children while the root, its id and its
name survive; invoked with any other id present exactly once in the tree
it removes exactly that node, with its whole subtree, from its parent's
children (`eraseAll` removes precisely the nodes carrying that id and
nothing else), and the id is gone afterwards. -/
theorem c1_delete_behavior :
    (∀ (t : Node) (i : String), t.id = some i →
        deleteAction t i = clearRootChildren t ∧
        (deleteAction t i).name = t.name ∧
        (deleteAction t i).id = t.id ∧
        (deleteAction t i).children = some []) ∧
    (∀ (t : Node) (i : String), countId t i = 1 → ¬ t.id = some i →
        deleteAction t i = eraseAll t i ∧ countId (deleteAction t i) i = 0) := by
  constructor
  · intro t i hid
    have hact : deleteAction t i = clearRootChildren t := by
      simp [deleteAction, hid]
    refine ⟨hact, ?_, ?_, ?_⟩ <;>
      (rw [hact]; cases t <;> simp [clearRootChildren, Node.withChildren])
  · intro t i hc hid
    have hact : deleteAction t i = eraseAll t i := by
      rw [deleteAction, if_neg hid]
      exact deleteNode_eq_eraseAll t i hc hid
    exact ⟨hact, by rw [hact]; exact countId_eraseAll t i hid⟩

/-- Closed instance of claim C1 on a concrete two-level tree, discharging
the hypotheses of `c1_delete_behavior` by evaluation. -/
theorem c1_delete_behavior_witness :
    deleteAction
        (Node.mk (some "root") "r" NType.folder (some [
          Node.mk (some "n1") "a.txt" NType.file none none none,
          Node.mk (some "n2") "d" NType.folder (some [
            Node.mk (some "n3") "b.txt" NType.file none none none]) (some false) none])
          (some false) none) "root" =
      clearRootChildren
        (Node.mk (some "root") "r" NType.folder (some [
          Node.mk (some "n1") "a.txt" NType.file none none none,
          Node.mk (some "n2") "d" NType.folder (some [
            Node.mk (some "n3") "b.txt" NType.file none none none]) (some false) none])
          (some false) none) ∧
    deleteAction
        (Node.mk (some "root") "r" NType.folder (some [
          Node.mk (some "n1") "a.txt" NType.file none none none,
          Node.mk (some "n2") "d" NType.folder (some [
            Node.mk (some "n3") "b.txt" NType.file none none none]) (some false) none])
          (some false) none) "n2" =
      eraseAll
        (Node.mk (some "root") "r" NType.folder (some [
          Node.mk (some "n1") "a.txt" NType.file none none none,
          Node.mk (some "n2") "d" NType.folder (some [
            Node.mk (some "n3") "b.txt" NType.file none none none]) (some false) none])
          (some false) none) "n2" :=
  ⟨(c1_delete_behavior.1 _ "root" (by decide)).1,
   (c1_delete_behavior.2 _ "n2" (by decide) (by decide)).1⟩

/-- Claim C3: `customNodeSort` realises exactly the specification's sibling
order (folders first with Error in the file bucket, unpinned before
pinned, pinned keys ascending, otherwise locale-aware name order): the
two comparators agree in sign on every pair, and the documented example
`{b: file}, {A: folder}, {...: file pinned}, {z: file}` renders as
`A, b, z, ...`. -/
theorem c3_sorter_order :
    (∀ a b : Node,
      (customNodeSort a b < 0 ↔ sorterSpecCompare a b < 0) ∧
      (customNodeSort a b = 0 ↔ sorterSpecCompare a b = 0) ∧
      (0 < customNodeSort a b ↔ 0 < sorterSpecCompare a b)) ∧
    generateAsciiTree
      (Node.mk (some "root") "dir" NType.folder (some [
        Node.mk (some "n0") "b" NType.file none none none,
        Node.mk (some "n1") "A" NType.folder (some []) none none,
        Node.mk (some "n2") "..." NType.file none none (some 111),
        Node.mk (some "n3") "z" NType.file none none none]) none none) =
      "dir\n├── A\n├── b\n├── z\n└── ...\n" := by
  constructor
  · intro a b
    unfold customNodeSort sorterSpecCompare
    rcases ha : a.userOrder with _ | av <;> rcases hb : b.userOrder with _ | bv <;>
      by_cases haF : a.type = NType.folder <;> by_cases hbF : b.type = NType.folder <;>
        simp [ha, hb, haF, hbF] <;> split_ifs <;> (try omega) <;> (refine ⟨?_, ?_, ?_⟩ <;> simp <;> omega)
  · simp [generateAsciiTree, asciiChildren, jsSort, List.insertionSort, List.orderedInsert,
      nodeRel, customNodeSort, localeCompare, strLt, charListLt, jsToLower, lowerChar]

/-- Claim C4: during a scan the active pattern set of a directory is the
inherited list plus the directory's own ignore-file patterns when the
option is on (the inherited list of the root being the explicit list),
that exact set is what the directory's entries are filtered with and what
its subdirectories inherit, and an entry whose basename is in the active
set contributes nothing: deleting every equally named entry, with its
entire subtree, from the filesystem does not change the scan result. -/
theorem c4_ignore_propagation :
    (∀ (x : String) (ign : List String) (e : FSEntry) (ug : Bool),
        x ∈ combinedIgnore ign e ug ↔
          x ∈ ign ∨ (ug = true ∧ x ∈ getGitignorePatterns e)) ∧
    (∀ (nm : String) (gi : Option (List String)) (es : List FSEntry) (r : Bool)
        (ign : List String) (ug : Bool),
        (r = true ∨ ¬ nm ∈ combinedIgnore ign (.dir nm gi es) ug) →
        ∃ kids, readEntries es (combinedIgnore ign (.dir nm gi es) ug) ug = Except.ok kids ∧
          readDirectoryRecursive (.dir nm gi es) r ign ug =
            Except.ok (some (Node.mk none nm NType.folder (some kids) none none))) ∧
    (∀ (nm : String) (gi : Option (List String)) (es : List FSEntry) (r : Bool)
        (ign : List String) (ug : Bool) (n : String),
        n ∈ combinedIgnore ign (.dir nm gi es) ug →
        readDirectoryRecursive (.dir nm gi (es.filter (fun e2 => !(e2.name == n)))) r ign ug =
          readDirectoryRecursive (.dir nm gi es) r ign ug) := by
  refine ⟨?_, readDir_dir_eq, readDir_filter_ignored⟩
  intro x ign e ug
  cases ug <;> simp [combinedIgnore]

/-- Closed instance of claim C4: scanning a root containing `node_modules`
with `node_modules` in the explicit list equals scanning the same tree
with the whole `node_modules` subtree removed from the filesystem. -/
theorem c4_ignore_propagation_witness :
    readDirectoryRecursive
        (.dir "proj" none
          ([FSEntry.dir "node_modules" none [FSEntry.file "x.js"],
            FSEntry.file "a.txt"].filter (fun e2 => !(e2.name == "node_modules"))))
        true ["node_modules"] false =
      readDirectoryRecursive
        (.dir "proj" none
          [FSEntry.dir "node_modules" none [FSEntry.file "x.js"], FSEntry.file "a.txt"])
        true ["node_modules"] false :=
  c4_ignore_propagation.2.2 "proj" none
    [FSEntry.dir "node_modules" none [FSEntry.file "x.js"], FSEntry.file "a.txt"]
    true ["node_modules"] false "node_modules" (by decide)

/-- Claim C5: for a directory root the scan never tests the root's own name
against the filter: whatever the explicit ignore list (even one containing
the root's basename), the `generate-tree` handler succeeds and returns a
folder node carrying the root's basename; only deeper entries are tested,
and a root entry named in the active set contributes no child at all. -/
theorem c5_root_not_filtered :
    (∀ (nm : String) (gi : Option (List String)) (es : List FSEntry)
        (ign : List String) (ug : Bool),
        ∃ kids, generateTree (.dir nm gi es) ign ug =
          Except.ok (Node.mk none nm NType.folder (some kids) none none)) ∧
    (∀ (nm : String) (gi : Option (List String)) (es : List FSEntry)
        (ign : List String) (ug : Bool) (n : String),
        n ∈ combinedIgnore ign (.dir nm gi es) ug →
        generateTree (.dir nm gi (es.filter (fun e2 => !(e2.name == n)))) ign ug =
          generateTree (.dir nm gi es) ign ug) := by
  constructor
  · exact generateTree_dir_ok
  · intro nm gi es ign ug n hn
    unfold generateTree
    rw [readDir_filter_ignored nm gi es true ign ug n hn]
    rfl

/-- Closed instance of claim C5: the returned root keeps its basename even
when the basename is in the explicit ignore list. -/
theorem c5_root_not_filtered_witness :
    (∃ kids, generateTree (.dir "myproj" none [FSEntry.file "a.txt"]) ["myproj"] false =
      Except.ok (Node.mk none "myproj" NType.folder (some kids) none none)) ∧
    generateTree
        (.dir "myproj" none ([FSEntry.file "hide.txt"].filter (fun e2 => !(e2.name == "hide.txt"))))
        ["hide.txt"] false =
      generateTree (.dir "myproj" none [FSEntry.file "hide.txt"]) ["hide.txt"] false :=
  ⟨c5_root_not_filtered.1 "myproj" none [FSEntry.file "a.txt"] ["myproj"] false,
   c5_root_not_filtered.2 "myproj" none [FSEntry.file "hide.txt"] ["hide.txt"] false
     "hide.txt" (by decide)⟩

theorem readDir_true_ok (e : FSEntry) (ign : List String) (ug : Bool)
    (hne : ∀ nm, e ≠ .statError nm) :
    ∃ ro, readDirectoryRecursive e true ign ug = Except.ok ro := by
  cases e with
  | file nm =>
    by_cases hm : nm ∈ combinedIgnore ign (.file nm) ug
    · exact ⟨none, by simp [readDirectoryRecursive, FSEntry.name, hm]⟩
    · exact ⟨some (Node.mk none nm NType.file none none none),
        by simp [readDirectoryRecursive, FSEntry.name, hm]⟩
  | dir nm gi es =>
    obtain ⟨ks, hks⟩ := readEntries_ok es (combinedIgnore ign (.dir nm gi es) ug) ug
    exact ⟨some (Node.mk none nm NType.folder (some ks) none none),
      by simp [readDirectoryRecursive, FSEntry.name, hks]⟩
  | statError nm => exact absurd rfl (hne nm)
  | readError nm gi2 =>
    exact ⟨some (Node.mk none (nm ++ " (cannot read)") NType.error none none none),
      by simp [readDirectoryRecursive, FSEntry.name]⟩

/-- Claim C9: the build throws exactly when the root itself cannot be
stat'ed; every other root succeeds.  A non-root entry that cannot be
stat'ed, or whose listing fails after a successful stat, becomes an
Error-kind node with no children in its place, and its siblings are
scanned unaffected on both sides of it. -/
theorem c9_error_isolation :
    (∀ (nm : String) (ign : List String) (ug : Bool),
        generateTree (.statError nm) ign ug =
          Except.error "Failed to generate tree: Cannot access selected folder") ∧
    (∀ (e : FSEntry) (ign : List String) (ug : Bool), (∀ nm, e ≠ .statError nm) →
        ∃ t, generateTree e ign ug = Except.ok t) ∧
    (∀ (nm : String) (gi : Option (List String)) (es1 es2 : List FSEntry) (n : String)
        (r : Bool) (ign : List String) (ug : Bool),
        (r = true ∨ ¬ nm ∈ combinedIgnore ign (.dir nm gi (es1 ++ .statError n :: es2)) ug) →
        ¬ n ∈ combinedIgnore ign (.dir nm gi (es1 ++ .statError n :: es2)) ug →
        ∃ k1 k2,
          readEntries es1 (combinedIgnore ign (.dir nm gi (es1 ++ .statError n :: es2)) ug) ug =
            Except.ok k1 ∧
          readEntries es2 (combinedIgnore ign (.dir nm gi (es1 ++ .statError n :: es2)) ug) ug =
            Except.ok k2 ∧
          readDirectoryRecursive (.dir nm gi (es1 ++ .statError n :: es2)) r ign ug =
            Except.ok (some (Node.mk none nm NType.folder
              (some (k1 ++ Node.mk none (n ++ " (inaccessible)") NType.error none none none :: k2))
              none none))) ∧
    (∀ (nm : String) (gi gi2 : Option (List String)) (es1 es2 : List FSEntry) (n : String)
        (r : Bool) (ign : List String) (ug : Bool),
        (r = true ∨ ¬ nm ∈ combinedIgnore ign (.dir nm gi (es1 ++ .readError n gi2 :: es2)) ug) →
        ¬ n ∈ combinedIgnore
            (combinedIgnore ign (.dir nm gi (es1 ++ .readError n gi2 :: es2)) ug)
            (.readError n gi2) ug →
        ∃ k1 k2,
          readEntries es1 (combinedIgnore ign (.dir nm gi (es1 ++ .readError n gi2 :: es2)) ug) ug =
            Except.ok k1 ∧
          readEntries es2 (combinedIgnore ign (.dir nm gi (es1 ++ .readError n gi2 :: es2)) ug) ug =
            Except.ok k2 ∧
          readDirectoryRecursive (.dir nm gi (es1 ++ .readError n gi2 :: es2)) r ign ug =
            Except.ok (some (Node.mk none nm NType.folder
              (some (k1 ++ Node.mk none (n ++ " (cannot read)") NType.error none none none :: k2))
              none none))) := by
  refine ⟨?_, ?_, ?_, ?_⟩
  · intro nm ign ug
    simp [generateTree, readDirectoryRecursive]
  · intro e ign ug hne
    obtain ⟨ro, hro⟩ := readDir_true_ok e ign ug hne
    cases ro with
    | none =>
      exact ⟨Node.mk none e.name NType.folder (some []) none none, by simp [generateTree, hro]⟩
    | some tr => exact ⟨tr, by simp [generateTree, hro]⟩
  · intro nm gi es1 es2 n r ign ug hside hn
    obtain ⟨k1, hk1⟩ :=
      readEntries_ok es1 (combinedIgnore ign (.dir nm gi (es1 ++ .statError n :: es2)) ug) ug
    obtain ⟨k2, hk2⟩ :=
      readEntries_ok es2 (combinedIgnore ign (.dir nm gi (es1 ++ .statError n :: es2)) ug) ug
    refine ⟨k1, k2, hk1, hk2, ?_⟩
    have hn3 : ¬ n ∈ combinedIgnore
        (combinedIgnore ign (.dir nm gi (es1 ++ .statError n :: es2)) ug) (.statError n) ug := by
      cases ug <;> simpa [combinedIgnore, getGitignorePatterns] using hn
    have hrd : readDirectoryRecursive (.statError n) false
        (combinedIgnore ign (.dir nm gi (es1 ++ .statError n :: es2)) ug) ug =
        Except.ok (some (Node.mk none (n ++ " (inaccessible)") NType.error none none none)) := by
      simp only [readDirectoryRecursive, FSEntry.name] at hn3 ⊢
      simp [hn3]
    have hmid : readEntries (.statError n :: es2)
        (combinedIgnore ign (.dir nm gi (es1 ++ .statError n :: es2)) ug) ug =
        Except.ok (Node.mk none (n ++ " (inaccessible)") NType.error none none none :: k2) := by
      simp [readEntries, FSEntry.name, hn, hrd, hk2]
    have hall := readEntries_append hk1 hmid
    obtain ⟨kids, hk, hd⟩ :=
      readDir_dir_eq nm gi (es1 ++ .statError n :: es2) r ign ug hside
    rw [hall] at hk
    cases hk
    exact hd
  · intro nm gi gi2 es1 es2 n r ign ug hside hn2
    have hn : ¬ n ∈ combinedIgnore ign (.dir nm gi (es1 ++ .readError n gi2 :: es2)) ug := by
      intro hc
      exact hn2 (by unfold combinedIgnore; exact List.mem_append_left _ hc)
    obtain ⟨k1, hk1⟩ :=
      readEntries_ok es1 (combinedIgnore ign (.dir nm gi (es1 ++ .readError n gi2 :: es2)) ug) ug
    obtain ⟨k2, hk2⟩ :=
      readEntries_ok es2 (combinedIgnore ign (.dir nm gi (es1 ++ .readError n gi2 :: es2)) ug) ug
    refine ⟨k1, k2, hk1, hk2, ?_⟩
    have hrd : readDirectoryRecursive (.readError n gi2) false
        (combinedIgnore ign (.dir nm gi (es1 ++ .readError n gi2 :: es2)) ug) ug =
        Except.ok (some (Node.mk none (n ++ " (cannot read)") NType.error none none none)) := by
      have hcond : ¬ ((FSEntry.readError n gi2).name ∈ combinedIgnore
          (combinedIgnore ign (.dir nm gi (es1 ++ .readError n gi2 :: es2)) ug)
          (.readError n gi2) ug) := hn2
      simp only [readDirectoryRecursive, FSEntry.name] at hcond ⊢
      simp [hcond]
    have hmid : readEntries (.readError n gi2 :: es2)
        (combinedIgnore ign (.dir nm gi (es1 ++ .readError n gi2 :: es2)) ug) ug =
        Except.ok (Node.mk none (n ++ " (cannot read)") NType.error none none none :: k2) := by
      simp [readEntries, FSEntry.name, hn, hrd, hk2]
    have hall := readEntries_append hk1 hmid
    obtain ⟨kids, hk, hd⟩ :=
      readDir_dir_eq nm gi (es1 ++ .readError n gi2 :: es2) r ign ug hside
    rw [hall] at hk
    cases hk
    exact hd

/-- Closed instance of claim C9: a scan with an unreadable entry between two
readable siblings keeps both siblings and yields an Error node in place. -/
theorem c9_error_isolation_witness :
    (∃ t, generateTree (.dir "proj" none [FSEntry.file "a.txt"]) [] false = Except.ok t) ∧
    (∃ k1 k2,
      readEntries [FSEntry.file "a.txt"] (combinedIgnore []
        (.dir "proj" none
          [FSEntry.file "a.txt", FSEntry.statError "bad", FSEntry.file "z.txt"]) false) false =
        Except.ok k1 ∧
      readEntries [FSEntry.file "z.txt"] (combinedIgnore []
        (.dir "proj" none
          [FSEntry.file "a.txt", FSEntry.statError "bad", FSEntry.file "z.txt"]) false) false =
        Except.ok k2 ∧
      readDirectoryRecursive
          (.dir "proj" none
            [FSEntry.file "a.txt", FSEntry.statError "bad", FSEntry.file "z.txt"]) true [] false =
        Except.ok (some (Node.mk none "proj" NType.folder
          (some (k1 ++ Node.mk none "bad (inaccessible)" NType.error none none none :: k2))
          none none))) :=
  ⟨c9_error_isolation.2.1 (.dir "proj" none [FSEntry.file "a.txt"]) [] false (by intro nm h; cases h),
   c9_error_isolation.2.2.1 "proj" none [FSEntry.file "a.txt"] [FSEntry.file "z.txt"] "bad"
     true [] false (Or.inl rfl) (by decide)⟩

/-- Claim C10: the load-time shape validation is shallow: it accepts exactly
the objects whose top level has a string `name`, a `type` equal to
`'folder'` or `'file'`, and an array-valued `children`; the contents of
the `children` array are never inspected, so any two arrays (including
arbitrarily malformed ones) validate identically, and every such folder
object is accepted outright. -/
theorem c10_shallow_validation :
    (∀ fields : List (String × JValue),
      isValidTreeStructure (.obj fields) = true ↔
        ((∃ s, jLookup fields "name" = some (.str s)) ∧
         (jLookup fields "type" = some (.str "folder") ∨
          jLookup fields "type" = some (.str "file")) ∧
         (∃ xs, jLookup fields "children" = some (.arr xs)))) ∧
    (∀ (s ty : String) (kids kids2 : List JValue),
      isValidTreeStructure
          (.obj [("name", .str s), ("type", .str ty), ("children", .arr kids)]) =
        isValidTreeStructure
          (.obj [("name", .str s), ("type", .str ty), ("children", .arr kids2)])) ∧
    (∀ (s : String) (kids : List JValue),
      isValidTreeStructure
          (.obj [("name", .str s), ("type", .str "folder"), ("children", .arr kids)]) = true) := by
  refine ⟨?_, ?_, ?_⟩
  · intro fields
    simp only [isValidTreeStructure, Bool.and_eq_true]
    constructor
    · rintro ⟨⟨h1, h2⟩, h3⟩
      refine ⟨?_, ?_, ?_⟩
      · cases hv : jLookup fields "name" with
        | none => rw [hv] at h1; simp at h1
        | some v =>
          cases v <;> rw [hv] at h1 <;> simp at h1 ⊢
      · cases hv : jLookup fields "type" with
        | none => rw [hv] at h2; simp at h2
        | some v =>
          cases v with
          | str sv =>
            rw [hv] at h2
            simp at h2
            rcases h2 with h2 | h2 <;> simp [h2]
          | num nv => rw [hv] at h2; simp at h2
          | bool bv => rw [hv] at h2; simp at h2
          | null => rw [hv] at h2; simp at h2
          | arr xs => rw [hv] at h2; simp at h2
          | obj fs => rw [hv] at h2; simp at h2
      · cases hv : jLookup fields "children" with
        | none => rw [hv] at h3; simp at h3
        | some v =>
          cases v <;> rw [hv] at h3 <;> simp at h3 ⊢
    · rintro ⟨⟨s, h1⟩, h2, xs, h3⟩
      rw [h1, h3]
      rcases h2 with h2 | h2 <;> simp [h2]
  · intro s ty kids kids2
    simp [isValidTreeStructure, jLookup]
  · intro s kids
    simp [isValidTreeStructure, jLookup]

/-- Counterexample to claim C2 as stated: two sibling folders that share
the name `a` (and so compare as equivalent under `customNodeSort`) but
hold different files keep their stored order through the stable sort, so
permuting the children changes the rendered text. -/
theorem c2_duplicate_siblings_counterexample :
    PermTree
      (Node.mk (some "root") "r" NType.folder (some [
        Node.mk (some "i1") "a" NType.folder (some [
          Node.mk (some "i3") "x" NType.file none none none]) none none,
        Node.mk (some "i2") "a" NType.folder (some [
          Node.mk (some "i4") "y" NType.file none none none]) none none]) none none)
      (Node.mk (some "root") "r" NType.folder (some [
        Node.mk (some "i2") "a" NType.folder (some [
          Node.mk (some "i4") "y" NType.file none none none]) none none,
        Node.mk (some "i1") "a" NType.folder (some [
          Node.mk (some "i3") "x" NType.file none none none]) none none]) none none) ∧
    ¬ generateAsciiTree
        (Node.mk (some "root") "r" NType.folder (some [
          Node.mk (some "i1") "a" NType.folder (some [
            Node.mk (some "i3") "x" NType.file none none none]) none none,
          Node.mk (some "i2") "a" NType.folder (some [
            Node.mk (some "i4") "y" NType.file none none none]) none none]) none none) "" true =
      generateAsciiTree
        (Node.mk (some "root") "r" NType.folder (some [
          Node.mk (some "i2") "a" NType.folder (some [
            Node.mk (some "i4") "y" NType.file none none none]) none none,
          Node.mk (some "i1") "a" NType.folder (some [
            Node.mk (some "i3") "x" NType.file none none none]) none none]) none none) "" true := by
  constructor
  · exact ⟨rfl, rfl, rfl, rfl, rfl, ⟨_, permAligned_refl _, List.Perm.swap _ _ _⟩⟩
  · have h1 : generateAsciiTree
        (Node.mk (some "root") "r" NType.folder (some [
          Node.mk (some "i1") "a" NType.folder (some [
            Node.mk (some "i3") "x" NType.file none none none]) none none,
          Node.mk (some "i2") "a" NType.folder (some [
            Node.mk (some "i4") "y" NType.file none none none]) none none]) none none) "" true =
        "r\n├── a\n│   └── x\n└── a\n    └── y\n" := by
      simp [generateAsciiTree, asciiChildren, jsSort, List.insertionSort, List.orderedInsert,
        nodeRel, customNodeSort, localeCompare, strLt, charListLt, jsToLower, lowerChar]
    have h2 : generateAsciiTree
        (Node.mk (some "root") "r" NType.folder (some [
          Node.mk (some "i2") "a" NType.folder (some [
            Node.mk (some "i4") "y" NType.file none none none]) none none,
          Node.mk (some "i1") "a" NType.folder (some [
            Node.mk (some "i3") "x" NType.file none none none]) none none]) none none) "" true =
        "r\n├── a\n│   └── y\n└── a\n    └── x\n" := by
      simp [generateAsciiTree, asciiChildren, jsSort, List.insertionSort, List.orderedInsert,
        nodeRel, customNodeSort, localeCompare, strLt, charListLt, jsToLower, lowerChar]
    rw [h1, h2]
    decide

/-- Claim C2 (amended): rendering is deterministic and, provided no node
has two comparator-equivalent siblings (`equivFree`, e.g. no duplicate
same-kind names), permuting every child list leaves both the ASCII and
the markdown rendering unchanged, because children are sorted before
emission. -/
theorem c2_render_permutation (a b : Node) (hp : PermTree a b) (hf : equivFree a = true)
    (ind : String) (last : Bool) (level : Nat) :
    generateAsciiTree a ind last = generateAsciiTree b ind last ∧
      generateMarkdownTree a level = generateMarkdownTree b level :=
  ⟨ascii_permTree_fuel (sizeOf a) a b le_rfl hp hf ind last,
   markdown_permTree_fuel (sizeOf a) a b le_rfl hp hf level⟩

/-- Closed instance of claim C2 on a concrete root whose two children (a
folder and a file) are stored in the two possible orders, discharging
the hypotheses of `c2_render_permutation` by an explicit permutation
term and evaluation. -/
theorem c2_render_permutation_witness :
    generateAsciiTree
        (Node.mk (some "root") "r" NType.folder (some [
          Node.mk (some "i1") "sub" NType.folder (some []) none none,
          Node.mk (some "i2") "f.txt" NType.file none none none]) none none) "" true =
      generateAsciiTree
        (Node.mk (some "root") "r" NType.folder (some [
          Node.mk (some "i2") "f.txt" NType.file none none none,
          Node.mk (some "i1") "sub" NType.folder (some []) none none]) none none) "" true ∧
      generateMarkdownTree
        (Node.mk (some "root") "r" NType.folder (some [
          Node.mk (some "i1") "sub" NType.folder (some []) none none,
          Node.mk (some "i2") "f.txt" NType.file none none none]) none none) 0 =
      generateMarkdownTree
        (Node.mk (some "root") "r" NType.folder (some [
          Node.mk (some "i2") "f.txt" NType.file none none none,
          Node.mk (some "i1") "sub" NType.folder (some []) none none]) none none) 0 :=
  c2_render_permutation
    (Node.mk (some "root") "r" NType.folder (some [
      Node.mk (some "i1") "sub" NType.folder (some []) none none,
      Node.mk (some "i2") "f.txt" NType.file none none none]) none none)
    (Node.mk (some "root") "r" NType.folder (some [
      Node.mk (some "i2") "f.txt" NType.file none none none,
      Node.mk (some "i1") "sub" NType.folder (some []) none none]) none none)
    ⟨rfl, rfl, rfl, rfl, rfl, ⟨_, permAligned_refl _, List.Perm.swap _ _ _⟩⟩
    (by decide) "" true 0

/-- Claim C6: for a well-formed editor tree (root id `'root'` occurring
once, a folder with a children array and a non-empty name), saving
(`cleanNodeForSave`) and loading (`deserializeForLoad`) succeeds and the
re-loaded tree renders exactly the same ASCII text: stripping `id` and
`collapsed` and re-assigning them on load does not affect rendering. -/
theorem c6_save_load_roundtrip (T : Node) (l : List Node) (k : Nat) (ind : String) (last : Bool)
    (hid : T.id = some "root") (hcnt : countId T "root" = 1) (hty : T.type = NType.folder)
    (hch : T.children = some l) (hnm : ¬ T.name = "") :
    deserializeForLoad (cleanNodeForSave T) k =
        some (assignIds (forceRootIdAndName (cleanNodeForSave T)) k).1 ∧
      generateAsciiTree (assignIds (forceRootIdAndName (cleanNodeForSave T)) k).1 ind last =
        generateAsciiTree T ind last := by
  cases T with
  | mk i nm t c co u =>
    simp only [Node.id_mk, Node.name_mk, Node.type_mk, Node.children_mk] at hid hty hch hnm
    subst hid hty hch
    have h0 : countIdList l "root" = 0 := by
      simp [countId] at hcnt
      omega
    have hval : isValidShapeNode (cleanNodeForSave
        (Node.mk (some "root") nm NType.folder (some l) co u)) = true := by
      simp [cleanNodeForSave, isValidShapeNode]
    refine ⟨by simp [deserializeForLoad, hval], ?_⟩
    have hsv : stripView ((assignIds (forceRootIdAndName (cleanNodeForSave
        (Node.mk (some "root") nm NType.folder (some l) co u))) k).1) =
        stripView (Node.mk (some "root") nm NType.folder (some l) co u) := by
      rw [stripView_assignIds]
      simp [cleanNodeForSave, forceRootIdAndName, stripView, hnm, stripView_cleanList l h0]
    calc generateAsciiTree ((assignIds (forceRootIdAndName (cleanNodeForSave
          (Node.mk (some "root") nm NType.folder (some l) co u))) k).1) ind last
        = generateAsciiTree (stripView ((assignIds (forceRootIdAndName (cleanNodeForSave
            (Node.mk (some "root") nm NType.folder (some l) co u))) k).1)) ind last :=
          (ascii_stripView _ ind last).symm
      _ = generateAsciiTree (stripView
            (Node.mk (some "root") nm NType.folder (some l) co u)) ind last := by rw [hsv]
      _ = generateAsciiTree (Node.mk (some "root") nm NType.folder (some l) co u) ind last :=
          ascii_stripView _ ind last

/-- Closed instance of claim C6 on a concrete one-child tree, discharging
the hypotheses of `c6_save_load_roundtrip` by evaluation. -/
theorem c6_save_load_roundtrip_witness :
    deserializeForLoad (cleanNodeForSave (Node.mk (some "root") "proj" NType.folder
        (some [Node.mk (some "node-0") "a.txt" NType.file none (some false) none])
        (some false) none)) 0 =
        some (assignIds (forceRootIdAndName (cleanNodeForSave
          (Node.mk (some "root") "proj" NType.folder
            (some [Node.mk (some "node-0") "a.txt" NType.file none (some false) none])
            (some false) none))) 0).1 ∧
      generateAsciiTree (assignIds (forceRootIdAndName (cleanNodeForSave
          (Node.mk (some "root") "proj" NType.folder
            (some [Node.mk (some "node-0") "a.txt" NType.file none (some false) none])
            (some false) none))) 0).1 "" true =
        generateAsciiTree (Node.mk (some "root") "proj" NType.folder
          (some [Node.mk (some "node-0") "a.txt" NType.file none (some false) none])
          (some false) none) "" true :=
  c6_save_load_roundtrip (Node.mk (some "root") "proj" NType.folder
      (some [Node.mk (some "node-0") "a.txt" NType.file none (some false) none])
      (some false) none)
    [Node.mk (some "node-0") "a.txt" NType.file none (some false) none] 0 "" true
    rfl (by decide) rfl rfl (by decide)

/-- Claim C7: `saveName` rejects a name that trims to empty and rejects a
duplicate same-kind sibling name, in both cases returning the tree
unchanged; on success it performs exactly the single-node
`renameUpdate` at the target id; and the duplicate test holds exactly
when some other sibling has the same name and type. -/
theorem c7_rename_validation (t : Node) (i raw : String) (now : Int) :
    (jsTrim raw = "" → saveName t i raw now = (t, some "Name cannot be empty.")) ∧
    (∀ node, ¬ jsTrim raw = "" → findNodeById t i = some node →
      isDuplicateName t i (jsTrim raw) node.type = true →
      saveName t i raw now =
        (t, some ("An item named \"" ++ jsTrim raw ++ "\" already exists in this directory."))) ∧
    (∀ node, ¬ jsTrim raw = "" → findNodeById t i = some node →
      isDuplicateName t i (jsTrim raw) node.type = false →
      saveName t i raw now = (mapById t i (renameUpdate (jsTrim raw) now), none)) ∧
    (∀ nn ty, isDuplicateName t i nn ty = true ↔
      ∃ s ∈ renameSiblings t i, ¬ s.id = some i ∧ s.name = nn ∧ s.type = ty) := by
  refine ⟨?_, ?_, ?_, ?_⟩
  · intro h
    simp [saveName, h]
  · intro node hne hfind hdup
    simp [saveName, hne, hfind, hdup]
  · intro node hne hfind hdup
    simp [saveName, hne, hfind, hdup]
  · intro nn ty
    simp [isDuplicateName, List.any_eq_true]

/-- Closed instance of claim C7 on the specification example: a folder
with files `a.txt` and `b.txt`, renaming `b.txt` to `"  a.txt "` (a
duplicate after trimming), to the empty string, and to the fresh name
`c.txt`, discharging the hypotheses of `c7_rename_validation` by
evaluation. -/
theorem c7_rename_validation_witness :
    saveName (Node.mk (some "root") "r" NType.folder
        (some [Node.mk (some "n1") "a.txt" NType.file none none none,
               Node.mk (some "n2") "b.txt" NType.file none none none]) (some false) none)
      "n2" "  a.txt " 5 =
      (Node.mk (some "root") "r" NType.folder
        (some [Node.mk (some "n1") "a.txt" NType.file none none none,
               Node.mk (some "n2") "b.txt" NType.file none none none]) (some false) none,
       some "An item named \"a.txt\" already exists in this directory.") ∧
    saveName (Node.mk (some "root") "r" NType.folder
        (some [Node.mk (some "n1") "a.txt" NType.file none none none,
               Node.mk (some "n2") "b.txt" NType.file none none none]) (some false) none)
      "n2" "" 5 =
      (Node.mk (some "root") "r" NType.folder
        (some [Node.mk (some "n1") "a.txt" NType.file none none none,
               Node.mk (some "n2") "b.txt" NType.file none none none]) (some false) none,
       some "Name cannot be empty.") ∧
    saveName (Node.mk (some "root") "r" NType.folder
        (some [Node.mk (some "n1") "a.txt" NType.file none none none,
               Node.mk (some "n2") "b.txt" NType.file none none none]) (some false) none)
      "n2" "c.txt" 5 =
      (mapById (Node.mk (some "root") "r" NType.folder
        (some [Node.mk (some "n1") "a.txt" NType.file none none none,
               Node.mk (some "n2") "b.txt" NType.file none none none]) (some false) none)
        "n2" (renameUpdate "c.txt" 5), none) := by
  refine ⟨?_, ?_, ?_⟩
  · exact ((c7_rename_validation (Node.mk (some "root") "r" NType.folder
        (some [Node.mk (some "n1") "a.txt" NType.file none none none,
               Node.mk (some "n2") "b.txt" NType.file none none none]) (some false) none)
      "n2" "  a.txt " 5).2.1
      (Node.mk (some "n2") "b.txt" NType.file none none none)
      (by decide) (by decide) (by decide)).trans (by decide)
  · exact (c7_rename_validation (Node.mk (some "root") "r" NType.folder
        (some [Node.mk (some "n1") "a.txt" NType.file none none none,
               Node.mk (some "n2") "b.txt" NType.file none none none]) (some false) none)
      "n2" "" 5).1 (by decide)
  · exact ((c7_rename_validation (Node.mk (some "root") "r" NType.folder
        (some [Node.mk (some "n1") "a.txt" NType.file none none none,
               Node.mk (some "n2") "b.txt" NType.file none none none]) (some false) none)
      "n2" "c.txt" 5).2.2.1
      (Node.mk (some "n2") "b.txt" NType.file none none none)
      (by decide) (by decide) (by decide)).trans (by decide)

/-- Counterexample to claim C8 as stated: `saveRootName` does not apply
the pinned-order rule, so renaming the root to the sentinel `"..."`
succeeds without assigning a pinned-order key and breaks the invariant
that the key is present exactly on nodes named `"..."`. -/
theorem c8_root_rename_counterexample :
    pinnedInv (Node.mk (some "root") "r" NType.folder (some []) none none) = true ∧
      saveRootName (Node.mk (some "root") "r" NType.folder (some []) none none) "..." =
        ((Node.mk (some "root") "r" NType.folder (some []) none none).withName "...", none) ∧
      pinnedInv ((saveRootName
        (Node.mk (some "root") "r" NType.folder (some []) none none) "...").1) = false := by
  decide

/-- Claim C8 (amended): a successful non-root rename (`saveName`)
preserves the pinned-order invariant, and the update it applies gives
the node a pinned-order key equal to the current time exactly when the
new trimmed name is the sentinel `"..."`, removing the key otherwise;
`saveRootName` is exempt from the rule (see the counterexample). -/
theorem c8_pinned_invariant (t : Node) (i raw : String) (now : Int) (t2 : Node) (n : Node)
    (hinv : pinnedInv t = true) (h : saveName t i raw now = (t2, none)) :
    pinnedInv t2 = true ∧
      (renameUpdate (jsTrim raw) now n).userOrder =
        (if jsTrim raw = "..." then some now else none) ∧
      (renameUpdate (jsTrim raw) now n).name = jsTrim raw := by
  refine ⟨?_, ?_, ?_⟩
  · rw [saveName_success h]
    exact pinnedInv_mapById_rename t i (jsTrim raw) now hinv
  · cases n with
    | mk id nm ty c co u => simp [renameUpdate]
  · cases n with
    | mk id nm ty c co u => simp [renameUpdate]

/-- Closed instance of claim C8 on a concrete tree whose only child is
renamed to `"..."`, discharging the hypotheses of `c8_pinned_invariant`
by evaluation. -/
theorem c8_pinned_invariant_witness :
    pinnedInv (Node.mk (some "root") "r" NType.folder
        (some [Node.mk (some "n1") "..." NType.file none none (some 7)]) none none) = true ∧
      (renameUpdate (jsTrim "...") 7
          (Node.mk (some "n9") "x" NType.file none none none)).userOrder =
        (if jsTrim "..." = "..." then some 7 else none) ∧
      (renameUpdate (jsTrim "...") 7
          (Node.mk (some "n9") "x" NType.file none none none)).name = jsTrim "..." :=
  c8_pinned_invariant (Node.mk (some "root") "r" NType.folder
      (some [Node.mk (some "n1") "x" NType.file none none none]) none none)
    "n1" "..." 7
    (Node.mk (some "root") "r" NType.folder
      (some [Node.mk (some "n1") "..." NType.file none none (some 7)]) none none)
    (Node.mk (some "n9") "x" NType.file none none none)
    (by decide) (by decide)

end DirTree
